import Mathlib

/-!
Verification of the poppel-cpp core (directory-backed hierarchical storage with an
npy array codec) against its natural-language specification.

The development shallowly embeds the two core components:

* `Npy`: the array codec of `include/poppel/core/npy.hpp`.  Byte streams are
  `List Nat` (each entry `< 256`), header text is `List Char`, machine integers
  (`std::int64_t` sizes) are `Int`, and `std::uint32_t`/`std::uint16_t`
  truncations are written out as explicit `% 2 ^ 32` / `% 2 ^ 16`.  The model
  fixes the host to a little-endian platform on which plain `char` is signed
  (x86-64 Linux / MSVC, the targets of the repository build scripts).

* `Core`: the node store of `src/poppel.cpp`.  The filesystem is an explicit
  association list from component paths to entries and every operation threads
  it, returning `Except` for the C++ exceptions.

Definitions keep the names of the source functions wherever Lean allows it.
-/

deriving instance DecidableEq for Except

namespace PoppelProof

namespace Npy

/-- Character 39, the single-quote character used by the npy header dictionary. -/
def squote : Char := Char.ofNat 39

/-- Character 123, the opening curly brace of the npy header dictionary. -/
def lbrace : Char := Char.ofNat 123

/-- Character 125, the closing curly brace of the npy header dictionary. -/
def rbrace : Char := Char.ofNat 125

/-- Character 10, the newline terminating the npy header text. -/
def nlChar : Char := Char.ofNat 10

/-- Character 9, the tab character (part of the whitespace set of `internal::trim`). -/
def tabChar : Char := Char.ofNat 9

/-- Npy format version, mirroring `npy::Version` (two `std::uint8_t` fields). -/
structure Version where
  major : Nat
  minor : Nat
  deriving DecidableEq, Repr

/-- Element type descriptor, mirroring `npy::Dtype`
(`char byteorder; char kind; Size itemsize`, with `Size = std::int64_t`). -/
structure Dtype where
  byteorder : Char
  kind : Char
  itemsize : Int
  deriving DecidableEq, Repr

/-- Array header, mirroring `npy::Header`. -/
structure Header where
  dtype : Dtype
  fortran_order : Bool
  shape : List Int
  deriving DecidableEq, Repr

/-- Mirrors `Header::length()`: the running product `ret = 1; for s in shape: ret *= s`. -/
def Header.length (h : Header) : Int :=
  h.shape.foldl (fun r s => r * s) 1

/-- Mirrors `Header::numbytes()`. -/
def Header.numbytes (h : Header) : Int :=
  h.length * h.dtype.itemsize

/-- Mirrors `internal::kind_size_multiplier`. -/
def kind_size_multiplier (kind : Char) : Int :=
  if kind = 'U' then 4 else 1

/-- Decimal digit character, value `48 + n` for `n < 10`. -/
def digitChar (n : Nat) : Char := Char.ofNat (48 + n)

/-- Fuelled decimal printer (the fuel makes the recursion structural so that the
kernel can evaluate it; `natDecimal` supplies enough fuel). -/
def natDecimalAux : Nat → Nat → List Char
  | 0, _ => []
  | fuel + 1, n =>
    if n < 10 then [digitChar n] else natDecimalAux fuel (n / 10) ++ [digitChar (n % 10)]

/-- Decimal representation of a natural number, most significant digit first.
Models the digit sequence produced by `std::ostringstream` / `std::to_string`. -/
def natDecimal (n : Nat) : List Char := natDecimalAux (n + 1) n

/-- Decimal representation of a signed 64-bit integer as printed by
`std::ostringstream` / `std::to_string` (minus sign followed by digits). -/
def intDecimal (i : Int) : List Char :=
  if i < 0 then '-' :: natDecimal (-i).toNat else natDecimal i.toNat

/-- Mirrors `internal::gen_descr`: byte order char, kind char, then
`itemsize / kind_size_multiplier(kind)` printed in decimal. -/
def gen_descr (dtype : Dtype) : List Char :=
  dtype.byteorder :: dtype.kind :: intDecimal (dtype.itemsize / kind_size_multiplier dtype.kind)

/-- Consume leading decimal digits, accumulating their value; returns the value
and the unconsumed remainder.  Models the digit loop of `std::from_chars`. -/
def parseDigits : List Char → Nat → Nat × List Char
  | [], acc => (acc, [])
  | c :: rest, acc =>
    if 48 ≤ c.toNat ∧ c.toNat ≤ 57 then parseDigits rest (acc * 10 + (c.toNat - 48))
    else (acc, c :: rest)

/-- Models `std::from_chars` into a signed 64-bit integer: an optional minus sign
followed by at least one digit; `none` when no digit is consumed (in which case
the C++ output argument is left unmodified). -/
def fromCharsInt (cs : List Char) : Option Int :=
  match cs with
  | '-' :: rest =>
    let p := parseDigits rest 0
    if p.2.length = rest.length then none else some (-(p.1 : Int))
  | _ =>
    let p := parseDigits cs 0
    if p.2.length = cs.length then none else some (p.1 : Int)

/-- Mirrors `internal::parse_descr`.  The caller (`parse_header`) guarantees a
length of at least 3; on shorter input the C++ reads out of bounds, modelled here
by the zero-initialised `Dtype` that the C++ function starts from. -/
def parse_descr (cs : List Char) : Dtype :=
  match cs with
  | b :: k :: rest =>
    { byteorder := b, kind := k, itemsize := ((fromCharsInt rest).getD 0) * kind_size_multiplier k }
  | _ => { byteorder := Char.ofNat 0, kind := Char.ofNat 0, itemsize := 0 }

/-- Interior of the shape tuple for two or more dimensions: entries joined by
a comma and a space (the loop body of `internal::gen_shape`). -/
def gen_shape_items : List Int → List Char
  | [] => []
  | [n] => intDecimal n
  | n :: rest => (intDecimal n ++ [',', ' ']) ++ gen_shape_items rest

/-- Mirrors `internal::gen_shape` (no parentheses): empty for rank 0, `N,` for
rank 1, otherwise comma-space separated entries. -/
def gen_shape (shape : List Int) : List Char :=
  match shape with
  | [] => []
  | [n] => intDecimal n ++ [',']
  | l => gen_shape_items l

/-- First index at which `pat` occurs as a contiguous sublist of `hay`
(`std::string_view::find`); `none` models `npos`. -/
def strFind : List Char → List Char → Option Nat
  | hay, pat =>
    if pat.isPrefixOf hay then some 0
    else
      match hay with
      | [] => none
      | _ :: t => (strFind t pat).map (· + 1)

/-- Mirrors `std::string_view::find(pat, pos)`. -/
def strFindFrom (hay pat : List Char) (pos : Nat) : Option Nat :=
  (strFind (hay.drop pos) pat).map (· + pos)

/-- Mirrors `std::string_view::find_first_not_of`. -/
def findFirstNotOf : List Char → List Char → Option Nat
  | [], _ => none
  | c :: t, set => if c ∈ set then (findFirstNotOf t set).map (· + 1) else some 0

/-- Mirrors `std::string_view::find_last_not_of`. -/
def findLastNotOf (cs set : List Char) : Option Nat :=
  (findFirstNotOf cs.reverse set).map (fun i => cs.length - 1 - i)

/-- The whitespace set used by `internal::trim`. -/
def whitespaceChars : List Char := [' ', tabChar]

/-- Mirrors `internal::trim`: the slice from the first to the last character that
is not a space or tab ("" when every character is whitespace). -/
def trim (cs : List Char) : List Char :=
  match findFirstNotOf cs whitespaceChars with
  | none => []
  | some b =>
    match findLastNotOf cs whitespaceChars with
    | none => []
    | some e => (cs.drop b).take (e - b + 1)

/-- Fuelled loop body of `internal::parse_shape`: split at commas, trim each
piece, parse non-empty pieces with `from_chars` (failed parses leave the
value-initialised `0`).  Each iteration consumes at least one character, so
`parse_shape` passes `length + 1` fuel. -/
def parse_shape_aux : Nat → List Char → List Int → List Int
  | 0, _, acc => acc
  | fuel + 1, cs, acc =>
    match cs with
    | [] => acc
    | _ =>
      let loc_comma := strFind cs [',']
      let token := trim (cs.take (loc_comma.getD cs.length))
      let acc1 := if token.isEmpty then acc else acc ++ [(fromCharsInt token).getD 0]
      match loc_comma with
      | none => acc1
      | some l => parse_shape_aux fuel (cs.drop (l + 1)) acc1

/-- Mirrors `internal::parse_shape` (no parentheses). -/
def parse_shape (cs : List Char) : List Int :=
  parse_shape_aux (cs.length + 1) cs []

/-- The literal `'descr': ` searched for by `parse_header` (9 characters). -/
def descrPat : List Char := (squote :: "descr".toList) ++ [squote, ':', ' ']

/-- The literal `'fortran_order': ` searched for by `parse_header` (17 characters). -/
def fortranPat : List Char := (squote :: "fortran_order".toList) ++ [squote, ':', ' ']

/-- The literal `'shape': ` searched for by `parse_header` (9 characters). -/
def shapePat : List Char := (squote :: "shape".toList) ++ [squote, ':', ' ']

/-- The boolean literal `True`. -/
def trueLit : List Char := "True".toList

/-- The boolean literal `False`. -/
def falseLit : List Char := "False".toList

/-- Mirrors `internal::preamble_length`: magic (6) + version (2) + the
header-length field (2 bytes for major version 1, otherwise 4). -/
def preamble_length (version : Version) : Nat :=
  if version.major = 1 then 6 + 2 + 2 else 6 + 2 + 4

/-- Mirrors `internal::header_alignment`. -/
def header_alignment : Nat := 64

/-- The dictionary text written by `internal::gen_header` before padding. -/
def gen_header_dict (header : Header) : List Char :=
  ([lbrace] ++ descrPat ++ [squote] ++ gen_descr header.dtype ++ [squote, ',', ' ']
    ++ fortranPat ++ (if header.fortran_order then trueLit else falseLit) ++ [',', ' ']
    ++ shapePat ++ ['('] ++ gen_shape header.shape ++ [')', ',', ' ']) ++ [rbrace]

/-- Mirrors `internal::gen_header`: the dictionary text, padded with spaces so
that preamble + text + newline is a multiple of 64, then a newline. -/
def gen_header (version : Version) (header : Header) : List Char :=
  let ret := gen_header_dict header
  let expected_length := preamble_length version + ret.length + 1
  let padding_length :=
    if expected_length % header_alignment = 0 then 0
    else header_alignment - expected_length % header_alignment
  (ret ++ List.replicate padding_length ' ') ++ [nlChar]

/-- Byte values 0..255; streams are lists of bytes. -/
abbrev Byte := Nat

/-- The 6-byte magic constant `\x93NUMPY` (`internal::magic_string`). -/
def magic_string : List Byte := [147, 78, 85, 77, 80, 89]

/-- A header-text character written to the byte stream (header text is ASCII,
so the truncation never fires for generated headers). -/
def charToByte (c : Char) : Byte := c.toNat % 256

/-- A byte read back into a header-text character. -/
def byteToChar (b : Byte) : Char := Char.ofNat (b % 256)

/-- Mirrors `internal::write_magic`: magic constant then the two version bytes. -/
def write_magic (version : Version) : List Byte :=
  magic_string ++ [version.major % 256, version.minor % 256]

/-- Mirrors `internal::write_header`.  The header length is truncated to
`std::uint16_t` (version 1.0) or `std::uint32_t` (otherwise) and written
little-endian; `(x >> 8 * k) & 0xff` is written `x / 2 ^ (8 * k) % 256`. -/
def write_header (version : Version) (header : List Char) : List Byte :=
  write_magic version
    ++ (if version = ⟨1, 0⟩ then
          [header.length % 2 ^ 16 % 256, header.length % 2 ^ 16 / 2 ^ 8 % 256]
        else
          [header.length % 2 ^ 32 % 256, header.length % 2 ^ 32 / 2 ^ 8 % 256,
            header.length % 2 ^ 32 / 2 ^ 16 % 256, header.length % 2 ^ 32 / 2 ^ 24 % 256])
    ++ header.map charToByte

/-- Mirrors the core `npy::save(std::ostream&, const Header&, const std::byte*)`:
always version 3.0, then `numbytes` bytes of payload (`data` stands for the bytes
reachable from the data pointer). -/
def save (header : Header) (data : List Byte) : List Byte :=
  write_header ⟨3, 0⟩ (gen_header ⟨3, 0⟩ header) ++ data.take header.numbytes.toNat

end Npy

namespace Core

/-- Node type tags, mirroring `core::NodeType`. -/
inductive NodeType
  | Unknown
  | File
  | Group
  | Dataset
  | Raw
  deriving DecidableEq, Repr

/-- Mirrors `core::NodeMeta` (defaults `version = 1`, `type = Unknown`). -/
structure NodeMeta where
  version : Int := 1
  type : NodeType := NodeType.Unknown
  deriving DecidableEq, Repr

/-- Model of `std::filesystem::path` (generic format): an absolute flag and the
list of components.  Conventions: `a/b` parses to components `["a", "b"]`, a
trailing separator contributes a final empty component (`a/` is `["a", ""]`),
a lone dot is `["."]`, and repeated separators do not produce empty interior
components (matching path iteration). -/
structure PathM where
  absolute : Bool
  comps : List String
  deriving DecidableEq, Repr

/-- Mirrors `path::empty()`. -/
def PathM.isEmptyPath (p : PathM) : Bool := !p.absolute && p.comps.isEmpty

/-- Mirrors `path::operator/` (append); an absolute right-hand side replaces the
left-hand side. -/
def PathM.app (p q : PathM) : PathM :=
  if q.absolute then q else ⟨p.absolute, p.comps ++ q.comps⟩

/-- Mirrors `path::has_filename()`: the final component exists and is non-empty. -/
def PathM.hasFilename (p : PathM) : Bool := p.comps.getLastD "" ≠ ""

/-- Mirrors `*path.begin()` (the first component; the root directory for
absolute paths). -/
def PathM.firstComp (p : PathM) : String :=
  if p.absolute then "/" else p.comps.headD ""

/-- Stack pass of the `lexically_normal` algorithm: drop `.` and empty
components, cancel a name followed by `..`, and drop `..` directly after a
root directory. -/
def normStack (absolute : Bool) : List String → List String → List String
  | stack, [] => stack.reverse
  | stack, c :: rest =>
    if c = "." || c = "" then normStack absolute stack rest
    else if c = ".." then
      match stack with
      | [] => if absolute then normStack absolute [] rest else normStack absolute [".."] rest
      | top :: s2 =>
        if top = ".." then normStack absolute (".." :: top :: s2) rest
        else normStack absolute s2 rest
    else normStack absolute (c :: stack) rest

/-- Mirrors `path::lexically_normal()`: the stack pass, then a `.` result for a
relative path that normalized away completely, and a trailing empty component
(directory marker) when the original path ended in a separator, `.` or a
cancelled `..` and the normalized path does not itself end in `..`. -/
def PathM.lexically_normal (p : PathM) : PathM :=
  let core := normStack p.absolute [] p.comps
  if core.isEmpty then
    if p.absolute then ⟨true, []⟩
    else if p.comps.isEmpty then ⟨false, []⟩
    else ⟨false, ["."]⟩
  else if (p.comps.getLastD "") ∈ ["", ".", ".."] && core.getLastD "" ≠ ".." then
    ⟨p.absolute, core ++ [""]⟩
  else ⟨p.absolute, core⟩

/-- Mirrors `core::is_valid_node_normalized_relpath`. -/
def is_valid_node_normalized_relpath (p : PathM) : Bool :=
  if p.absolute || p.isEmptyPath then false
  else if p.firstComp = "." || p.firstComp = ".." then false
  else p.hasFilename

/-- Content of a regular file in the filesystem model. -/
inductive FsData
  | metaJson (m : NodeMeta)
  | npyFile (bytes : List Npy.Byte)
  | other
  deriving DecidableEq, Repr

/-- A filesystem entry: a directory or a regular file. -/
inductive FsEntry
  | dir
  | file (d : FsData)
  deriving DecidableEq, Repr

/-- The filesystem: an association list from component paths (relative to the
model root) to entries; earlier entries shadow later ones. -/
abbrev FS := List (List String × FsEntry)

/-- Look up the entry at a path. -/
def fsLookup (fs : FS) (k : List String) : Option FsEntry :=
  match fs with
  | [] => none
  | (k2, e) :: rest => if k2 = k then some e else fsLookup rest k

/-- Create or overwrite the entry at a path. -/
def fsInsert (fs : FS) (k : List String) (e : FsEntry) : FS := (k, e) :: fs

/-- Mirrors `std::filesystem::remove_all`: delete the entry and its subtree. -/
def fsRemoveAll (fs : FS) (k : List String) : FS :=
  fs.filter (fun kv => !(k.isPrefixOf kv.1))

/-- Mirrors `std::filesystem::is_directory`. -/
def is_directory (fs : FS) (p : PathM) : Bool := fsLookup fs p.comps == some FsEntry.dir

/-- Mirrors `std::filesystem::exists`. -/
def fsExists (fs : FS) (p : PathM) : Bool := (fsLookup fs p.comps).isSome

/-- Error kinds, one per `throw` site of the node store. -/
inductive Err
  | closedFile       -- Unable to operate on closed File instance.
  | readOnlyFile     -- Cannot change data on file in read only mode
  | invalidPath      -- [...] is not a valid relative path.
  | notGroup         -- Node is not a group or file.
  | notDataset       -- Node is not a dataset.
  | typeMismatch     -- Node is not of expected type.
  | notDirectory     -- Path is not a directory.
  | occupied         -- Path is already occupied.
  | cannotOpenMeta   -- Unable to open poppel.json file.
  | badMetaJson      -- descriptor file exists but does not parse as a descriptor
  | ioError          -- underlying std::filesystem / fstream failure
  deriving DecidableEq, Repr

/-- Mirrors `core::FileOpenState`. -/
inductive FileOpenState
  | ReadOnly
  | ReadWrite
  | Closed
  deriving DecidableEq, Repr

/-- Mirrors `core::FileStates`. -/
structure FileStates where
  open_state : FileOpenState
  deriving DecidableEq, Repr

/-- Mirrors `core::Node` (`types.hpp`). -/
structure Node where
  meta : NodeMeta
  root : PathM
  relpath : PathM
  deriving DecidableEq, Repr

/-- Mirrors `Node::path()`. -/
def Node.path (n : Node) : PathM :=
  if n.relpath.isEmptyPath then n.root else n.root.app n.relpath

/-- Mirrors `core::assert_file_open`. -/
def assert_file_open (filestates : FileStates) : Except Err Unit :=
  if filestates.open_state = FileOpenState.Closed then .error .closedFile else .ok ()

/-- Mirrors `core::assert_file_writable`. -/
def assert_file_writable (filestates : FileStates) : Except Err Unit :=
  if filestates.open_state = FileOpenState.Closed then .error .closedFile
  else if filestates.open_state = FileOpenState.ReadOnly then .error .readOnlyFile
  else .ok ()

/-- Mirrors `core::is_node_group` (true for Group and File). -/
def is_node_group (node : Node) : Bool :=
  node.meta.type == NodeType.Group || node.meta.type == NodeType.File

/-- Mirrors `core::is_node_dataset`. -/
def is_node_dataset (node : Node) : Bool := node.meta.type == NodeType.Dataset

/-- Mirrors `core::read_node_meta`: open `nodepath / "poppel.json"` and parse it.
Opening fails when the file is missing (or the name is a directory); parsing
fails when the content is not a descriptor document.  Read-only. -/
def read_node_meta (fs : FS) (nodepath : PathM) : Except Err NodeMeta :=
  match fsLookup fs (nodepath.comps ++ ["poppel.json"]) with
  | some (FsEntry.file (FsData.metaJson m)) => .ok m
  | some (FsEntry.file _) => .error .badMetaJson
  | _ => .error .cannotOpenMeta

/-- Mirrors `core::write_node_meta`: `std::ofstream` creates or truncates the
descriptor file; it fails to open when the parent directory does not exist. -/
def write_node_meta (fs : FS) (nodepath : PathM) (meta : NodeMeta) : Except Err Unit × FS :=
  if fsLookup fs nodepath.comps = some FsEntry.dir then
    (.ok (), fsInsert fs (nodepath.comps ++ ["poppel.json"]) (FsEntry.file (FsData.metaJson meta)))
  else (.error .cannotOpenMeta, fs)

/-- Mirrors `core::get_node` (poppel.cpp lines 206-221): resolve `name` under
`node`, requiring an existing directory whose descriptor type equals
`nodetype`.  Read-only: the filesystem is never modified, so it is not
returned. -/
def get_node (fs : FS) (node : Node) (name : PathM) (filestates : FileStates)
    (nodetype : NodeType) : Except Err Node :=
  match assert_file_open filestates with
  | .error e => .error e
  | .ok _ =>
  if ¬ is_node_group node then .error .notGroup
  else
    let normalized_name := name.lexically_normal
    if ¬ is_valid_node_normalized_relpath normalized_name then .error .invalidPath
    else
      let dirpath := node.path.app normalized_name
      if ¬ is_directory fs dirpath then .error .notDirectory
      else
        match read_node_meta fs dirpath with
        | .error e => .error e
        | .ok meta =>
          if meta.type ≠ nodetype then .error .typeMismatch
          else .ok ⟨meta, node.root, node.relpath.app normalized_name⟩

/-- Mirrors `core::create_node_immediate` (poppel.cpp lines 223-238).  Note that
the returned node's `relpath` is `normalized_name` alone, not
`node.relpath / normalized_name` (this is exactly what the source returns;
compare `get_node`). -/
def create_node_immediate (fs : FS) (node : Node) (name : PathM)
    (filestates : FileStates) (nodetype : NodeType) : Except Err Node × FS :=
  match assert_file_writable filestates with
  | .error e => (.error e, fs)
  | .ok _ =>
  if ¬ is_node_group node then (.error .notGroup, fs)
  else
    let normalized_name := name.lexically_normal
    if ¬ is_valid_node_normalized_relpath normalized_name then (.error .invalidPath, fs)
    else
      let dirpath := node.path.app normalized_name
      if fsExists fs dirpath then (.error .occupied, fs)
      else
        if fsLookup fs dirpath.comps.dropLast ≠ some FsEntry.dir then (.error .ioError, fs)
        else
          let meta : NodeMeta := { type := nodetype }
          let fs1 := fsInsert fs dirpath.comps FsEntry.dir
          match write_node_meta fs1 dirpath meta with
          | (.error e, fs2) => (.error e, fs2)
          | (.ok _, fs2) => (.ok ⟨meta, node.root, normalized_name⟩, fs2)

/-- One iteration of the `require_node` loop: resolve `part` when
`cur.path() / part` is a directory, otherwise create it. -/
def require_step (fs : FS) (cur : Node) (part : String) (filestates : FileStates)
    (required_node_type : NodeType) : Except Err Node × FS :=
  if is_directory fs (cur.path.app ⟨false, [part]⟩) then
    (get_node fs cur ⟨false, [part]⟩ filestates required_node_type, fs)
  else
    create_node_immediate fs cur ⟨false, [part]⟩ filestates required_node_type

/-- The iterator loop of `require_node`: every part except the last is required
as a Group, the last as `nodetype`. -/
def require_walk : FS → Node → List String → FileStates → NodeType → Except Err Node × FS
  | fs, cur, [], _, _ => (.ok cur, fs)
  | fs, cur, [part], filestates, nodetype => require_step fs cur part filestates nodetype
  | fs, cur, part :: p2 :: rest, filestates, nodetype =>
    match require_step fs cur part filestates NodeType.Group with
    | (.error e, fs1) => (.error e, fs1)
    | (.ok next, fs1) => require_walk fs1 next (p2 :: rest) filestates nodetype

/-- Mirrors `core::require_node` (poppel.cpp lines 241-259). -/
def require_node (fs : FS) (node : Node) (name : PathM) (filestates : FileStates)
    (nodetype : NodeType) : Except Err Node × FS :=
  match assert_file_open filestates with
  | .error e => (.error e, fs)
  | .ok _ =>
  if ¬ is_node_group node then (.error .notGroup, fs)
  else
    let normalized_name := name.lexically_normal
    if ¬ is_valid_node_normalized_relpath normalized_name then (.error .invalidPath, fs)
    else require_walk fs node normalized_name.comps filestates nodetype

/-- Mirrors `path::has_parent_path()` for the paths that reach it here. -/
def hasParentPath (p : PathM) : Bool := p.absolute || p.comps.length ≥ 2

/-- Mirrors `path::parent_path()`. -/
def parentPath (p : PathM) : PathM := ⟨p.absolute, p.comps.dropLast⟩

/-- Mirrors `path::filename()` as a single-component relative path. -/
def filenamePath (p : PathM) : PathM := ⟨false, [p.comps.getLastD ""]⟩

/-- Mirrors `core::create_node` (poppel.cpp lines 260-272). -/
def create_node (fs : FS) (node : Node) (name : PathM) (filestates : FileStates)
    (nodetype : NodeType) : Except Err Node × FS :=
  match assert_file_writable filestates with
  | .error e => (.error e, fs)
  | .ok _ =>
  if ¬ is_node_group node then (.error .notGroup, fs)
  else
    let normalized_name := name.lexically_normal
    if ¬ is_valid_node_normalized_relpath normalized_name then (.error .invalidPath, fs)
    else
      if hasParentPath normalized_name then
        match require_node fs node (parentPath normalized_name) filestates NodeType.Group with
        | (.error e, fs1) => (.error e, fs1)
        | (.ok cur, fs1) =>
          create_node_immediate fs1 cur (filenamePath normalized_name) filestates nodetype
      else create_node_immediate fs node (filenamePath normalized_name) filestates nodetype

/-- Mirrors `core::delete_node` (poppel.cpp lines 273-282). -/
def delete_node (fs : FS) (node : Node) (name : PathM) (filestates : FileStates) :
    Except Err Unit × FS :=
  match assert_file_writable filestates with
  | .error e => (.error e, fs)
  | .ok _ =>
  if ¬ is_node_group node then (.error .notGroup, fs)
  else
    let normalized_name := name.lexically_normal
    if ¬ is_valid_node_normalized_relpath normalized_name then (.error .invalidPath, fs)
    else
      let dirpath := node.path.app normalized_name
      if ¬ is_directory fs dirpath then (.error .notDirectory, fs)
      else (.ok (), fsRemoveAll fs dirpath.comps)

/-- Mirrors `Dataset::save_from` of the facade (poppel.hpp): gate on writability
and the Dataset tag, then the codec writes `node.path() / "data.npy"` (the
`std::ofstream` fails when the parent directory is missing).  `header` and
`data` stand for the header and payload produced by the typed overload. -/
def dataset_save_from (fs : FS) (node : Node) (filestates : FileStates)
    (header : Npy.Header) (data : List Npy.Byte) : Except Err Unit × FS :=
  match assert_file_writable filestates with
  | .error e => (.error e, fs)
  | .ok _ =>
  if ¬ is_node_dataset node then (.error .notDataset, fs)
  else
    let npypath := (node.path.app ⟨false, ["data.npy"]⟩).comps
    if fsLookup fs npypath.dropLast ≠ some FsEntry.dir then (.error .ioError, fs)
    else (.ok (), fsInsert fs npypath (FsEntry.file (FsData.npyFile (Npy.save header data))))

end Core

/-- Initial filesystem for the node-store scenarios: an empty File root
directory `f1` with its descriptor. -/
def fs0 : Core.FS :=
  [(["f1"], Core.FsEntry.dir),
   (["f1", "poppel.json"], Core.FsEntry.file (Core.FsData.metaJson ⟨1, Core.NodeType.File⟩))]

/-- The root File node of the scenarios. -/
def rootNode : Core.Node :=
  ⟨⟨1, Core.NodeType.File⟩, ⟨false, ["f1"]⟩, ⟨false, []⟩⟩

/-- Open state ReadWrite. -/
def rwStates : Core.FileStates := ⟨Core.FileOpenState.ReadWrite⟩

/-- Open state ReadOnly. -/
def roStates : Core.FileStates := ⟨Core.FileOpenState.ReadOnly⟩

/-- Open state Closed. -/
def closedStates : Core.FileStates := ⟨Core.FileOpenState.Closed⟩

/-- Filesystem with the root File `f1` and an existing Group `g1`. -/
def fs5 : Core.FS :=
  (["f1", "g1", "poppel.json"], Core.FsEntry.file (Core.FsData.metaJson ⟨1, Core.NodeType.Group⟩))
    :: (["f1", "g1"], Core.FsEntry.dir) :: fs0

namespace Core

/-- Pure resolution walk: the effect of the `require_node` loop when every
segment already exists — each intermediate part must resolve as a Group via
`get_node`, the final part as `nodetype`.  Never touches the filesystem. -/
def resolvesTo (fs : FS) : Node → List String → FileStates → NodeType → Except Err Node
  | cur, [], _, _ => .ok cur
  | cur, [part], filestates, nodetype => get_node fs cur ⟨false, [part]⟩ filestates nodetype
  | cur, part :: q :: rest, filestates, nodetype =>
    match get_node fs cur ⟨false, [part]⟩ filestates NodeType.Group with
    | .error e => .error e
    | .ok next => resolvesTo fs next (q :: rest) filestates nodetype

/-- fs2 preserves every entry of fs1: no deletions or overwrites. -/
def fsPreserves (fs1 fs2 : FS) : Prop :=
  ∀ k e, fsLookup fs1 k = some e → fsLookup fs2 k = some e

/-- Every key whose entry changed from fs1 to fs2 holds a freshly created Group
directory or the descriptor file of one: nothing else — in particular no node
of another type — is installed by a failed walk. -/
def onlyGroupAdds (fs1 fs2 : FS) : Prop :=
  ∀ k, fsLookup fs2 k ≠ fsLookup fs1 k →
    (fsLookup fs2 k = some FsEntry.dir ∧
      fsLookup fs2 (k ++ ["poppel.json"])
        = some (FsEntry.file (FsData.metaJson ⟨1, NodeType.Group⟩))) ∨
    (∃ q, k = q ++ ["poppel.json"] ∧
      fsLookup fs2 k = some (FsEntry.file (FsData.metaJson ⟨1, NodeType.Group⟩)) ∧
      fsLookup fs2 q = some FsEntry.dir)

/-- Checkable structural well-formedness: every entry nested below a top-level
name has a directory at its parent path. -/
def goodFSb (fs : FS) : Bool :=
  fs.all (fun kv => kv.1.length ≤ 1 || fsLookup fs kv.1.dropLast == some FsEntry.dir)

/-- Propositional parent condition derived from `goodFSb`. -/
def goodP (fs : FS) : Prop :=
  ∀ k x, k ≠ [] → (fsLookup fs (k ++ [x])).isSome → fsLookup fs k = some FsEntry.dir

end Core

/-- Filesystem for the C6 witness: the File root `f1` with an existing Dataset
`d1` that itself contains a Dataset directory `x`. -/
def fs6w : Core.FS :=
  [(["f1"], Core.FsEntry.dir),
   (["f1", "poppel.json"], Core.FsEntry.file (Core.FsData.metaJson ⟨1, Core.NodeType.File⟩)),
   (["f1", "d1"], Core.FsEntry.dir),
   (["f1", "d1", "poppel.json"],
     Core.FsEntry.file (Core.FsData.metaJson ⟨1, Core.NodeType.Dataset⟩)),
   (["f1", "d1", "x"], Core.FsEntry.dir),
   (["f1", "d1", "x", "poppel.json"],
     Core.FsEntry.file (Core.FsData.metaJson ⟨1, Core.NodeType.Dataset⟩))]

/-- The filesystem left behind by the failing `require(root, g1/d1/x, Group)`
walk on `fs6w`: the two Groups created before the type mismatch remain. -/
def fs6wAfter : Core.FS :=
  (["f1", "g1", "d1", "poppel.json"],
      Core.FsEntry.file (Core.FsData.metaJson ⟨1, Core.NodeType.Group⟩))
    :: (["f1", "g1", "d1"], Core.FsEntry.dir)
    :: (["f1", "g1", "poppel.json"],
        Core.FsEntry.file (Core.FsData.metaJson ⟨1, Core.NodeType.Group⟩))
    :: (["f1", "g1"], Core.FsEntry.dir)
    :: fs6w

namespace Npy

/-- Codec error kinds, one per throw site of npy.hpp. -/
inductive NpyErr
  | ioError            -- io error: failed reading file
  | badMagic           -- this file does not have a valid npy format.
  | unsupportedVersion -- unsupported file format version
  | invalidHeader      -- invalid header
  | noDescr            -- Cannot find descr in header.
  | invalidTypestring  -- invalid typestring (length)
  | noFortranOrder     -- Cannot find fortran_order in header.
  | noShapeValue       -- Cannot find value for shape in header.
  | headerMismatch     -- header information mismatch
  | notScalar          -- array is not scalar (0-dimensional)
  | not1D              -- array is not 1-dimensional
  | dtypeMismatch      -- array dtype is not match
  deriving DecidableEq, Repr

/-- Mirrors `internal::parse_header`. -/
def parse_header (cs0 : List Char) : Except NpyErr Header :=
  match cs0.getLast? with
  | none => .error .invalidHeader
  | some c =>
    if c ≠ nlChar then .error .invalidHeader
    else
      let sv := trim cs0.dropLast
      match strFind sv descrPat with
      | none => .error .noDescr
      | some loc_descr =>
        let sv_descr_to_end := sv.drop (loc_descr + 9)
        match strFind sv_descr_to_end [squote] with
        | none => .error .noDescr
        | some prime1 =>
          match strFindFrom sv_descr_to_end [squote] (prime1 + 1) with
          | none => .error .noDescr
          | some prime2 =>
            let sv_descr := (sv_descr_to_end.drop (prime1 + 1)).take (prime2 - prime1 - 1)
            if sv_descr.length < 3 then .error .invalidTypestring
            else
              let dtype := parse_descr sv_descr
              match strFind sv fortranPat with
              | none => .error .noFortranOrder
              | some loc_fortran =>
                let fortran_order := (sv.drop (loc_fortran + 17)).take 4 == trueLit
                let shape_start :=
                  match strFind sv shapePat with
                  | none => 8
                  | some loc_shape => loc_shape + 9
                let sv_shape_to_end := sv.drop shape_start
                match strFind sv_shape_to_end ['('] with
                | none => .error .noShapeValue
                | some l =>
                  match strFind sv_shape_to_end [')'] with
                  | none => .error .noShapeValue
                  | some r =>
                    let sv_shape := trim ((sv_shape_to_end.drop (l + 1)).take (r - l - 1))
                    .ok ⟨dtype, fortran_order, parse_shape sv_shape⟩

/-- Promotion of a byte read through a plain `char` to the 32-bit two's
complement bit pattern produced by integer promotion: on the modelled hosts
plain char is signed, so bytes at or above 0x80 sign-extend. -/
def sext8 (b : Byte) : Nat := if b % 256 < 128 then b % 256 else 0xFFFFFF00 + b % 256

/-- The header length assembled by `read_header` for versions at least 2.0:
`(c0 << 0) | (c1 << 8) | (c2 << 16) | (c3 << 24)` on promoted chars, converted
to `std::uint32_t`. -/
def read_u32_sc (b0 b1 b2 b3 : Byte) : Nat :=
  (sext8 b0 ||| sext8 b1 <<< 8 ||| sext8 b2 <<< 16 ||| sext8 b3 <<< 24) % 2 ^ 32

/-- The header length assembled for version 1.0 (2 bytes). -/
def read_u16_sc (b0 b1 : Byte) : Nat :=
  (sext8 b0 ||| sext8 b1 <<< 8) % 2 ^ 32

/-- Mirrors `internal::read_magic`: read 8 bytes, fail on a short stream, check
the magic constant, return the version and the rest of the stream. -/
def read_magic (s : List Byte) : Except NpyErr (Version × List Byte) :=
  if s.length < 8 then .error .ioError
  else if s.take 6 ≠ magic_string then .error .badMagic
  else .ok (⟨s.getD 6 0, s.getD 7 0⟩, s.drop 8)

/-- Mirrors `internal::read_header`: after magic and version, assemble the
length field through signed chars (see `read_u32_sc`), then read
`header_length` bytes of header text into a zero-initialised string.  The
source never checks the stream state here: on a short stream the unread tail
of the string stays zero (the unread length bytes, which the C++ leaves
indeterminate, are modelled as zero; no theorem exercises that path). -/
def read_header (s : List Byte) : Except NpyErr (List Char × List Byte) :=
  match read_magic s with
  | .error e => .error e
  | .ok (version, s1) =>
    if version = ⟨1, 0⟩ then
      let header_length := read_u16_sc (s1.getD 0 0) (s1.getD 1 0)
      let s2 := s1.drop 2
      .ok (((s2.take header_length).map byteToChar)
            ++ List.replicate (header_length - s2.length) (Char.ofNat 0),
           s2.drop header_length)
    else if version = ⟨2, 0⟩ ∨ version = ⟨3, 0⟩ then
      let header_length := read_u32_sc (s1.getD 0 0) (s1.getD 1 0) (s1.getD 2 0) (s1.getD 3 0)
      let s2 := s1.drop 4
      .ok (((s2.take header_length).map byteToChar)
            ++ List.replicate (header_length - s2.length) (Char.ofNat 0),
           s2.drop header_length)
    else .error .unsupportedVersion

/-- Mirrors `npy::load_header` (stream form). -/
def load_header (s : List Byte) : Except NpyErr (Header × List Byte) :=
  match read_header s with
  | .error e => .error e
  | .ok (text, rest) =>
    match parse_header text with
    | .error e => .error e
    | .ok h => .ok (h, rest)

/-- Mirrors `npy::load_data`: read `numbytes` bytes into the caller's buffer
(the source does not check the stream state; a short stream yields only the
available bytes). -/
def load_data (s : List Byte) (numbytes : Nat) : List Byte × List Byte :=
  (s.take numbytes, s.drop numbytes)

/-- Mirrors `npy::load(std::istream&, Header, std::byte*)` — the raw-buffer
load: re-parse the header, fail unless structurally equal to the expected one,
then read `numbytes` bytes. -/
def load_checked (expected : Header) (s : List Byte) : Except NpyErr (List Byte) :=
  match load_header s with
  | .error e => .error e
  | .ok (loaded, rest) =>
    if loaded ≠ expected then .error .headerMismatch
    else .ok (load_data rest expected.numbytes.toNat).1

/-- Mirrors the scalar `npy::load` overload for a scalar type of dtype `d`:
rank 0 and matching dtype, then `numbytes` bytes (the value's object
representation). -/
def load_scalar (d : Dtype) (s : List Byte) : Except NpyErr (List Byte) :=
  match load_header s with
  | .error e => .error e
  | .ok (header, rest) =>
    if header.shape.length ≠ 0 then .error .notScalar
    else if header.dtype ≠ d then .error .dtypeMismatch
    else .ok (load_data rest header.numbytes.toNat).1

/-- Mirrors the vector `npy::load` overload: rank 1 and matching dtype; the
vector is resized to `shape[0]` elements and `numbytes` bytes are read. -/
def load_vector (d : Dtype) (s : List Byte) : Except NpyErr (Int × List Byte) :=
  match load_header s with
  | .error e => .error e
  | .ok (header, rest) =>
    if header.shape.length ≠ 1 then .error .not1D
    else if header.dtype ≠ d then .error .dtypeMismatch
    else .ok (header.shape.headD 0, (load_data rest header.numbytes.toNat).1)

/-- The codec byte-order characters. -/
def char_little_endian : Char := '<'

/-- Big-endian marker. -/
def char_big_endian : Char := '>'

/-- No-endianness marker for single-byte kinds. -/
def char_no_endian : Char := '|'

/-- The host byte-order character; the model fixes a little-endian host. -/
def char_host_endian : Char := char_little_endian

/-- The dtype of `char` on the modelled host (plain char is signed, so the
integral normalisation maps it to `std::int8_t`). -/
def charDtype : Dtype := ⟨char_no_endian, 'i', 1⟩

/-- Mirrors the string `npy::load` overload. -/
def load_string (s : List Byte) : Except NpyErr (List Byte) :=
  match load_header s with
  | .error e => .error e
  | .ok (header, rest) =>
    if header.shape.length ≠ 1 then .error .not1D
    else if header.dtype ≠ charDtype then .error .dtypeMismatch
    else .ok (load_data rest header.numbytes.toNat).1

/-- Mirrors the scalar `npy::save` overload: the value's dtype, C order, rank 0. -/
def save_scalar (d : Dtype) (data : List Byte) : List Byte :=
  save ⟨d, false, []⟩ data

/-- Mirrors the vector `npy::save` overload; `n` stands for `data.size()` (the
element count), `data` for the vector's `n * itemsize` bytes. -/
def save_vector (d : Dtype) (n : Int) (data : List Byte) : List Byte :=
  save ⟨d, false, [n]⟩ data

/-- Mirrors the string `npy::save` overload. -/
def save_string (data : List Byte) : List Byte :=
  save ⟨charDtype, false, [(data.length : Int)]⟩ data

/-- The dtypes of the supported scalar element types (`internal::dtype`
overloads; bool normalises to uint8, char to int8 on the modelled host). -/
def supportedScalarDtypes : List Dtype :=
  [⟨char_no_endian, 'u', 1⟩,
   ⟨char_no_endian, 'i', 1⟩,
   ⟨char_host_endian, 'i', 2⟩,
   ⟨char_host_endian, 'i', 4⟩,
   ⟨char_host_endian, 'i', 8⟩,
   ⟨char_host_endian, 'u', 2⟩,
   ⟨char_host_endian, 'u', 4⟩,
   ⟨char_host_endian, 'u', 8⟩,
   ⟨char_host_endian, 'f', 4⟩,
   ⟨char_host_endian, 'f', 8⟩,
   ⟨char_host_endian, 'c', 8⟩,
   ⟨char_host_endian, 'c', 16⟩]

/-- Well-formedness of a header as produced by the supported save paths: a
real byte-order character, a known kind character, a positive itemsize
divisible by the kind multiplier, and non-negative dimensions. -/
def validHeader (h : Header) : Prop :=
  (h.dtype.byteorder = char_little_endian ∨ h.dtype.byteorder = char_big_endian ∨
    h.dtype.byteorder = char_no_endian) ∧
  h.dtype.kind ∈ ['i', 'u', 'f', 'c', 'U'] ∧
  0 < h.dtype.itemsize ∧
  kind_size_multiplier h.dtype.kind ∣ h.dtype.itemsize ∧
  ∀ d ∈ h.shape, 0 ≤ d

/-- Guard on the header length: all four little-endian bytes below 0x80, so
the signed-char promotion of `read_header` is the identity. -/
def headerLenOk (n : Nat) : Prop :=
  n < 2 ^ 32 ∧ n % 256 < 128 ∧ n / 2 ^ 8 % 256 < 128 ∧
    n / 2 ^ 16 % 256 < 128 ∧ n / 2 ^ 24 % 256 < 128

/-- A 22-dimensional header whose generated version 3.0 header text is 180
bytes long; the length byte 0xB4 sign-extends on read. -/
def h22bug : Header := ⟨⟨char_host_endian, 'f', 8⟩, true, List.replicate 22 2⟩

/-- Neither list is a prefix of the other. -/
def mutPrefix (l pat : List Char) : Bool := l.isPrefixOf pat || pat.isPrefixOf l

/-- No position inside `a` can begin an occurrence of `pat`, whatever text
follows `a`: every non-empty suffix of `a` is prefix-incomparable with `pat`. -/
def noStart : List Char → List Char → Bool
  | [], _ => true
  | c :: rest, pat => !mutPrefix (c :: rest) pat && noStart rest pat

end Npy

namespace Npy

theorem natDecimalAux_eq_of_lt :
    ∀ n f1 f2, n < f1 → n < f2 → natDecimalAux f1 n = natDecimalAux f2 n := by
  intro n
  induction n using Nat.strong_induction_on with
  | _ n ih =>
    intro f1 f2 h1 h2
    match f1, f2 with
    | g1 + 1, g2 + 1 =>
      simp only [natDecimalAux]
      split
      · rfl
      · rename_i h10
        have hd : n / 10 < n := Nat.div_lt_self (by omega) (by omega)
        rw [ih (n / 10) hd g1 g2 (by omega) (by omega)]

theorem natDecimal_unfold (n : Nat) :
    natDecimal n = if n < 10 then [digitChar n] else natDecimal (n / 10) ++ [digitChar (n % 10)] := by
  unfold natDecimal
  conv_lhs => simp only [natDecimalAux]
  split
  · rfl
  · rename_i h10
    have hd : n / 10 < n := Nat.div_lt_self (by omega) (by omega)
    rw [natDecimalAux_eq_of_lt (n / 10) n (n / 10 + 1) hd (by omega)]

theorem digitChar_toNat (k : Nat) (h : k < 10) : (digitChar k).toNat = 48 + k := by
  unfold digitChar
  interval_cases k <;> decide

theorem natDecimal_digits (n : Nat) :
    ∀ c ∈ natDecimal n, 48 ≤ c.toNat ∧ c.toNat ≤ 57 := by
  induction n using Nat.strong_induction_on with
  | _ n ih =>
    rw [natDecimal_unfold]
    split
    · rename_i h10
      intro c hc
      simp only [List.mem_singleton] at hc
      subst hc
      rw [digitChar_toNat n h10]
      omega
    · rename_i h10
      intro c hc
      rcases List.mem_append.mp hc with h | h
      · exact ih (n / 10) (Nat.div_lt_self (by omega) (by omega)) c h
      · simp only [List.mem_singleton] at h
        subst h
        rw [digitChar_toNat (n % 10) (Nat.mod_lt _ (by omega))]
        omega

theorem natDecimal_ne_nil (n : Nat) : natDecimal n ≠ [] := by
  rw [natDecimal_unfold]
  split <;> simp

theorem parseDigits_natDecimal (n : Nat) :
    ∀ acc rest, parseDigits (natDecimal n ++ rest) acc =
      parseDigits rest (acc * 10 ^ (natDecimal n).length + n) := by
  induction n using Nat.strong_induction_on with
  | _ n ih =>
    intro acc rest
    rw [natDecimal_unfold]
    split
    · rename_i h10
      simp only [List.singleton_append, List.length_singleton, parseDigits]
      rw [if_pos (by rw [digitChar_toNat n h10]; omega)]
      rw [digitChar_toNat n h10]
      norm_num
    · rename_i h10
      have hd : n / 10 < n := Nat.div_lt_self (by omega) (by omega)
      rw [List.append_assoc, ih (n / 10) hd acc ([digitChar (n % 10)] ++ rest)]
      have hm : n % 10 < 10 := Nat.mod_lt _ (by omega)
      simp only [List.singleton_append, parseDigits]
      rw [if_pos (by rw [digitChar_toNat (n % 10) hm]; omega)]
      rw [digitChar_toNat (n % 10) hm]
      simp only [List.length_append, List.length_singleton]
      rw [pow_succ, ← mul_assoc]
      congr 1
      have hdm : 10 * (n / 10) + n % 10 = n := Nat.div_add_mod n 10
      generalize acc * 10 ^ (natDecimal (n / 10)).length = t
      omega

theorem parseDigits_natDecimal_nil (n : Nat) :
    parseDigits (natDecimal n) 0 = (n, []) := by
  have h := parseDigits_natDecimal n 0 []
  rw [List.append_nil] at h
  rw [h]
  simp [parseDigits]

theorem fromCharsInt_natDecimal (n : Nat) : fromCharsInt (natDecimal n) = some (n : Int) := by
  obtain ⟨c, cs, hc⟩ : ∃ c cs, natDecimal n = c :: cs := by
    cases h : natDecimal n with
    | nil => exact absurd h (natDecimal_ne_nil n)
    | cons c cs => exact ⟨c, cs, rfl⟩
  have hdig := natDecimal_digits n c (by rw [hc]; exact List.mem_cons_self c cs)
  have hparse := parseDigits_natDecimal_nil n
  rw [hc] at hparse ⊢
  unfold fromCharsInt
  split
  · rename_i rest heq
    have : c = '-' := by
      have := congrArg (fun l => l.headD ' ') heq
      simpa using this
    subst this
    have : ('-' : Char).toNat = 45 := by decide
    omega
  · simp only [hparse, List.length_cons, List.length_nil]
    rw [if_neg (by omega)]

theorem intDecimal_nonneg (i : Int) (h : 0 ≤ i) : intDecimal i = natDecimal i.toNat := by
  unfold intDecimal
  rw [if_neg (by omega)]

theorem fromCharsInt_intDecimal (i : Int) (h : 0 ≤ i) :
    fromCharsInt (intDecimal i) = some i := by
  rw [intDecimal_nonneg i h, fromCharsInt_natDecimal, Int.toNat_of_nonneg h]

theorem kind_size_multiplier_pos (k : Char) : 0 < kind_size_multiplier k := by
  unfold kind_size_multiplier
  split <;> norm_num

end Npy

/-- C8: gen_descr writes the byte-order character, the kind character, and the
itemsize divided by the kind size multiplier (4 for kind U, 1 otherwise), and
parse_descr multiplies the parsed digits back by the same multiplier; hence for
every Dtype whose itemsize is a positive multiple of its kind multiplier,
`parse_descr (gen_descr d) = d`. -/
theorem C8_descr_roundtrip (d : Npy.Dtype) (hpos : 0 < d.itemsize)
    (hdvd : Npy.kind_size_multiplier d.kind ∣ d.itemsize) :
    Npy.parse_descr (Npy.gen_descr d) = d := by
  obtain ⟨b, k, its⟩ := d
  simp only at hpos hdvd
  have hmult := Npy.kind_size_multiplier_pos k
  have hq : 0 ≤ its / Npy.kind_size_multiplier k := Int.ediv_nonneg (le_of_lt hpos) (le_of_lt hmult)
  unfold Npy.gen_descr Npy.parse_descr
  simp only [Npy.fromCharsInt_intDecimal _ hq, Option.getD_some, Npy.Dtype.mk.injEq,
    true_and]
  exact Int.ediv_mul_cancel hdvd

/-- Witness for C8 at the concrete dtype `<U8` (unicode, itemsize 8 = 2 × 4). -/
theorem C8_descr_roundtrip_witness :
    0 < (Npy.Dtype.mk '<' 'U' 8).itemsize ∧
      Npy.kind_size_multiplier 'U' ∣ (8 : Int) ∧
      Npy.parse_descr (Npy.gen_descr (Npy.Dtype.mk '<' 'U' 8)) = Npy.Dtype.mk '<' 'U' 8 :=
  ⟨by decide, ⟨2, by decide⟩, C8_descr_roundtrip (Npy.Dtype.mk '<' 'U' 8) (by decide) ⟨2, by decide⟩⟩

/-- C7: every stream written by save begins with the 6-byte magic string
`\x93NUMPY`, then major version byte 3 and minor version byte 0, then a 4-byte
little-endian header-length field followed by the header text; the 2-byte
little-endian length-field form is used only for version 1.0, which save never
emits. -/
theorem C7_save_stream_layout :
    (∀ h data, Npy.save h data =
        Npy.magic_string ++ [3, 0]
          ++ [(Npy.gen_header ⟨3, 0⟩ h).length % 2 ^ 32 % 256,
              (Npy.gen_header ⟨3, 0⟩ h).length % 2 ^ 32 / 2 ^ 8 % 256,
              (Npy.gen_header ⟨3, 0⟩ h).length % 2 ^ 32 / 2 ^ 16 % 256,
              (Npy.gen_header ⟨3, 0⟩ h).length % 2 ^ 32 / 2 ^ 24 % 256]
          ++ (Npy.gen_header ⟨3, 0⟩ h).map Npy.charToByte
          ++ data.take h.numbytes.toNat) ∧
    (∀ hs, Npy.write_header ⟨1, 0⟩ hs =
        Npy.magic_string ++ [1, 0]
          ++ [hs.length % 2 ^ 16 % 256, hs.length % 2 ^ 16 / 2 ^ 8 % 256]
          ++ hs.map Npy.charToByte) ∧
    (∀ v hs, v ≠ ⟨1, 0⟩ → Npy.write_header v hs =
        Npy.magic_string ++ [v.major % 256, v.minor % 256]
          ++ [hs.length % 2 ^ 32 % 256, hs.length % 2 ^ 32 / 2 ^ 8 % 256,
              hs.length % 2 ^ 32 / 2 ^ 16 % 256, hs.length % 2 ^ 32 / 2 ^ 24 % 256]
          ++ hs.map Npy.charToByte) := by
  refine ⟨?_, ?_, ?_⟩
  · intro h data
    simp [Npy.save, Npy.write_header, Npy.write_magic, List.append_assoc]
  · intro hs
    simp [Npy.write_header, Npy.write_magic, List.append_assoc]
  · intro v hs hv
    simp only [Npy.write_header, Npy.write_magic]
    rw [if_neg hv]

/-- Witness for C7 at the concrete version 2.0 and the empty header text. -/
theorem C7_save_stream_layout_witness :
    Npy.write_header ⟨2, 0⟩ [] =
      Npy.magic_string ++ [2, 0] ++ [0, 0, 0, 0] ++ ([] : List Char).map Npy.charToByte := by
  have h := C7_save_stream_layout.2.2 ⟨2, 0⟩ [] (by decide)
  simpa using h

/-- C9: after lexical normalization, relative-path validity is decided exactly
as: the empty path is invalid, `.` is invalid, `..` is invalid (as is any
normalized path whose first segment is a dot or dot-dot), `a/` is invalid (no
terminal filename), absolute paths are invalid, while `a` and `a/b` are valid;
`is_valid_node_normalized_relpath` returns precisely these verdicts. -/
theorem C9_path_validity :
    Core.is_valid_node_normalized_relpath ⟨false, []⟩ = false ∧
    Core.is_valid_node_normalized_relpath ⟨false, ["."]⟩ = false ∧
    Core.is_valid_node_normalized_relpath ⟨false, [".."]⟩ = false ∧
    (∀ rest, Core.is_valid_node_normalized_relpath ⟨false, "." :: rest⟩ = false) ∧
    (∀ rest, Core.is_valid_node_normalized_relpath ⟨false, ".." :: rest⟩ = false) ∧
    Core.is_valid_node_normalized_relpath ⟨false, ["a", ""]⟩ = false ∧
    (∀ comps, Core.is_valid_node_normalized_relpath ⟨true, comps⟩ = false) ∧
    Core.is_valid_node_normalized_relpath ⟨false, ["a"]⟩ = true ∧
    Core.is_valid_node_normalized_relpath ⟨false, ["a", "b"]⟩ = true := by
  refine ⟨by decide, by decide, by decide, ?_, ?_, by decide, ?_, by decide, by decide⟩
  · intro rest
    simp [Core.is_valid_node_normalized_relpath, Core.PathM.firstComp, Core.PathM.isEmptyPath]
  · intro rest
    simp [Core.is_valid_node_normalized_relpath, Core.PathM.firstComp, Core.PathM.isEmptyPath]
  · intro comps
    simp [Core.is_valid_node_normalized_relpath]

/-- C3: evaluating `require(root, g1/g1/d1, Dataset)` on an empty File root.
The call succeeds and creates exactly two Group directories and one Dataset
directory with matching descriptors, but the Dataset lands at `g1/d1`, not at
`g1/g1/d1`: `create_node_immediate` returns a node whose `relpath` omits the
parent's relpath, so after the second segment is created the walk continues
from the wrong directory.  The claimed nested layout is refuted by the last
two conjuncts. -/
theorem C3_require_nested_misplaced :
    (Core.require_node fs0 rootNode ⟨false, ["g1", "g1", "d1"]⟩ rwStates
        Core.NodeType.Dataset).1
      = Except.ok ⟨⟨1, Core.NodeType.Dataset⟩, ⟨false, ["f1"]⟩, ⟨false, ["d1"]⟩⟩ ∧
    (let fs1 := (Core.require_node fs0 rootNode ⟨false, ["g1", "g1", "d1"]⟩ rwStates
        Core.NodeType.Dataset).2
     Core.fsLookup fs1 ["f1", "g1"] = some Core.FsEntry.dir ∧
     Core.fsLookup fs1 ["f1", "g1", "poppel.json"]
       = some (Core.FsEntry.file (Core.FsData.metaJson ⟨1, Core.NodeType.Group⟩)) ∧
     Core.fsLookup fs1 ["f1", "g1", "g1"] = some Core.FsEntry.dir ∧
     Core.fsLookup fs1 ["f1", "g1", "g1", "poppel.json"]
       = some (Core.FsEntry.file (Core.FsData.metaJson ⟨1, Core.NodeType.Group⟩)) ∧
     Core.fsLookup fs1 ["f1", "g1", "d1"] = some Core.FsEntry.dir ∧
     Core.fsLookup fs1 ["f1", "g1", "d1", "poppel.json"]
       = some (Core.FsEntry.file (Core.FsData.metaJson ⟨1, Core.NodeType.Dataset⟩)) ∧
     Core.fsLookup fs1 ["f1", "g1", "g1", "d1"] = none ∧
     Core.fsLookup fs1 ["f1", "g1", "g1", "d1", "poppel.json"] = none) := by
  decide

/-- C5 counterexample: creating `g1` as Dataset over the existing Group fails
with the AlreadyExists error (`Path is already occupied`), not with the
type-mismatch error that the claim states. -/
theorem C5_counterexample :
    (Core.create_node fs5 rootNode ⟨false, ["g1"]⟩ rwStates Core.NodeType.Dataset).1
        = Except.error Core.Err.occupied ∧
      Core.Err.occupied ≠ Core.Err.typeMismatch := by
  decide

/-- C5 amended: after `g1` exists as a Group under a container node, calling
create with path `g1` and node type Dataset fails with the AlreadyExists error
(`Path is already occupied`), and the filesystem — in particular the existing
Group directory and its descriptor — is left untouched. -/
theorem C5_create_over_group_occupied :
    Core.create_node fs5 rootNode ⟨false, ["g1"]⟩ rwStates Core.NodeType.Dataset
      = (Except.error Core.Err.occupied, fs5) := by
  decide

theorem create_node_immediate_closed (fs : Core.FS) (node : Core.Node) (name : Core.PathM)
    (t : Core.NodeType) :
    Core.create_node_immediate fs node name closedStates t = (.error .closedFile, fs) := rfl

theorem create_node_immediate_ro (fs : Core.FS) (node : Core.Node) (name : Core.PathM)
    (t : Core.NodeType) :
    Core.create_node_immediate fs node name roStates t = (.error .readOnlyFile, fs) := rfl

theorem get_node_ro_rw (fs : Core.FS) (node : Core.Node) (name : Core.PathM)
    (t : Core.NodeType) :
    Core.get_node fs node name roStates t = Core.get_node fs node name rwStates t := rfl

theorem require_step_ro (fs : Core.FS) (cur : Core.Node) (p : String) (t : Core.NodeType) :
    Core.require_step fs cur p roStates t =
      if Core.is_directory fs (cur.path.app ⟨false, [p]⟩)
      then (Core.get_node fs cur ⟨false, [p]⟩ roStates t, fs)
      else (.error .readOnlyFile, fs) := by
  unfold Core.require_step
  by_cases hd : Core.is_directory fs (cur.path.app ⟨false, [p]⟩)
  · rw [if_pos hd, if_pos hd]
  · rw [if_neg hd, if_neg hd, create_node_immediate_ro]

theorem require_walk_ro_fs :
    ∀ (segs : List String) (fs : Core.FS) (cur : Core.Node) (t : Core.NodeType),
      (Core.require_walk fs cur segs roStates t).2 = fs := by
  intro segs
  induction segs with
  | nil => intro fs cur t; rfl
  | cons p rest ih =>
    intro fs cur t
    cases rest with
    | nil =>
      show (Core.require_step fs cur p roStates t).2 = fs
      rw [require_step_ro]
      by_cases hd : Core.is_directory fs (cur.path.app ⟨false, [p]⟩)
      · rw [if_pos hd]
      · rw [if_neg hd]
    | cons q rest2 =>
      simp only [Core.require_walk]
      rw [require_step_ro]
      by_cases hd : Core.is_directory fs (cur.path.app ⟨false, [p]⟩)
      · rw [if_pos hd]
        cases hg : Core.get_node fs cur ⟨false, [p]⟩ roStates Core.NodeType.Group with
        | error e => rfl
        | ok next => exact ih fs next t
      · rw [if_neg hd]

theorem require_walk_rw_mutating_ro :
    ∀ (segs : List String) (fs : Core.FS) (cur : Core.Node) (t : Core.NodeType),
      (Core.require_walk fs cur segs rwStates t).2 ≠ fs →
      Core.require_walk fs cur segs roStates t = (.error .readOnlyFile, fs) := by
  intro segs
  induction segs with
  | nil => intro fs cur t h; exact absurd rfl h
  | cons p rest ih =>
    intro fs cur t h
    cases rest with
    | nil =>
      replace h : (Core.require_step fs cur p rwStates t).2 ≠ fs := h
      show Core.require_step fs cur p roStates t = _
      rw [require_step_ro]
      by_cases hd : Core.is_directory fs (cur.path.app ⟨false, [p]⟩)
      · exfalso
        apply h
        unfold Core.require_step
        rw [if_pos hd]
      · rw [if_neg hd]
    | cons q rest2 =>
      simp only [Core.require_walk] at h ⊢
      rw [require_step_ro]
      by_cases hd : Core.is_directory fs (cur.path.app ⟨false, [p]⟩)
      · rw [if_pos hd]
        unfold Core.require_step at h
        rw [if_pos hd] at h
        rw [← get_node_ro_rw] at h
        cases hg : Core.get_node fs cur ⟨false, [p]⟩ roStates Core.NodeType.Group with
        | error e => rw [hg] at h; exact absurd rfl h
        | ok next =>
          rw [hg] at h
          exact ih fs next t h
      · rw [if_neg hd]

/-- C4: every mutating Node Store call (create_node, require_node that must
create a node, delete_node, dataset save_from) invoked while the File open
state is Closed or ReadOnly fails with a state error and leaves the filesystem
completely unchanged.  A require_node "must create a node" exactly when the
same call in the ReadWrite state would change the filesystem; require_node in
the ReadOnly state never changes the filesystem at all. -/
theorem C4_state_gating :
    (∀ fs node name t, Core.create_node fs node name closedStates t = (.error .closedFile, fs)) ∧
    (∀ fs node name t, Core.create_node fs node name roStates t = (.error .readOnlyFile, fs)) ∧
    (∀ fs node name, Core.delete_node fs node name closedStates = (.error .closedFile, fs)) ∧
    (∀ fs node name, Core.delete_node fs node name roStates = (.error .readOnlyFile, fs)) ∧
    (∀ fs node h data, Core.dataset_save_from fs node closedStates h data
        = (.error .closedFile, fs)) ∧
    (∀ fs node h data, Core.dataset_save_from fs node roStates h data
        = (.error .readOnlyFile, fs)) ∧
    (∀ fs node name t, Core.require_node fs node name closedStates t
        = (.error .closedFile, fs)) ∧
    (∀ fs node name t, (Core.require_node fs node name roStates t).2 = fs) ∧
    (∀ fs node name t, (Core.require_node fs node name rwStates t).2 ≠ fs →
        Core.require_node fs node name roStates t = (.error .readOnlyFile, fs)) := by
  refine ⟨fun fs node name t => rfl, fun fs node name t => rfl,
    fun fs node name => rfl, fun fs node name => rfl,
    fun fs node h data => rfl, fun fs node h data => rfl,
    fun fs node name t => rfl, ?_, ?_⟩
  · intro fs node name t
    unfold Core.require_node
    show (if ¬ Core.is_node_group node then _ else _ : Except Core.Err Core.Node × Core.FS).2 = fs
    by_cases hg : Core.is_node_group node
    · rw [if_neg (by simpa using hg)]
      by_cases hv : Core.is_valid_node_normalized_relpath name.lexically_normal
      · rw [if_neg (by simpa using hv)]
        exact require_walk_ro_fs _ fs node t
      · rw [if_pos (by simpa using hv)]
    · rw [if_pos (by simpa using hg)]
  · intro fs node name t h
    unfold Core.require_node at h ⊢
    by_cases hg : Core.is_node_group node
    · rw [if_neg (by simpa using hg)] at h ⊢
      by_cases hv : Core.is_valid_node_normalized_relpath name.lexically_normal
      · rw [if_neg (by simpa using hv)] at h ⊢
        exact require_walk_rw_mutating_ro _ fs node t h
      · rw [if_pos (by simpa using hv)] at h
        exact absurd rfl h
    · rw [if_pos (by simpa using hg)] at h
      exact absurd rfl h

/-- Witness for C4: on the one-File filesystem, creating `g1` while Closed or
ReadOnly fails with the corresponding state error and leaves the filesystem
unchanged, and `require_node` of the missing `g1` (which the ReadWrite state
would create) fails read-only with the filesystem unchanged. -/
theorem C4_state_gating_witness :
    Core.create_node fs0 rootNode ⟨false, ["g1"]⟩ closedStates Core.NodeType.Group
        = (.error .closedFile, fs0) ∧
      Core.create_node fs0 rootNode ⟨false, ["g1"]⟩ roStates Core.NodeType.Group
        = (.error .readOnlyFile, fs0) ∧
      Core.delete_node fs0 rootNode ⟨false, ["g1"]⟩ roStates = (.error .readOnlyFile, fs0) ∧
      Core.require_node fs0 rootNode ⟨false, ["g1"]⟩ roStates Core.NodeType.Group
        = (.error .readOnlyFile, fs0) :=
  ⟨C4_state_gating.1 fs0 rootNode ⟨false, ["g1"]⟩ Core.NodeType.Group,
   C4_state_gating.2.1 fs0 rootNode ⟨false, ["g1"]⟩ Core.NodeType.Group,
   C4_state_gating.2.2.2.1 fs0 rootNode ⟨false, ["g1"]⟩,
   C4_state_gating.2.2.2.2.2.2.2.2 fs0 rootNode ⟨false, ["g1"]⟩ Core.NodeType.Group (by decide)⟩

theorem lexically_normal_single (p : String) (h1 : p ≠ ".") (h2 : p ≠ "..") (h3 : p ≠ "") :
    Core.PathM.lexically_normal ⟨false, [p]⟩ = ⟨false, [p]⟩ := by
  unfold Core.PathM.lexically_normal
  have hstack : Core.normStack false [] [p] = [p] := by
    simp only [Core.normStack, h1, h2, h3]
    simp [h1, h2, h3]
  rw [hstack]
  simp [h1, h2, h3]

theorem get_node_single_ok {fs : Core.FS} {cur : Core.Node} {p : String}
    {st : Core.FileStates} {t : Core.NodeType} {n : Core.Node}
    (hok : Core.get_node fs cur ⟨false, [p]⟩ st t = .ok n) :
    Core.PathM.lexically_normal ⟨false, [p]⟩ = ⟨false, [p]⟩ ∧
      Core.is_directory fs (cur.path.app ⟨false, [p]⟩) = true := by
  simp only [Core.get_node] at hok
  cases hopen : Core.assert_file_open st with
  | error e => rw [hopen] at hok; exact absurd hok (by simp)
  | ok u =>
  rw [hopen] at hok
  simp only at hok
  by_cases hg : Core.is_node_group cur = true
  case neg => rw [if_pos (by simpa using hg)] at hok; exact absurd hok (by simp)
  case pos =>
  rw [if_neg (by simpa using hg)] at hok
  by_cases hv : Core.is_valid_node_normalized_relpath
      (Core.PathM.lexically_normal ⟨false, [p]⟩) = true
  case neg => rw [if_pos (by simpa using hv)] at hok; exact absurd hok (by simp)
  case pos =>
  rw [if_neg (by simpa using hv)] at hok
  have hnorm : Core.PathM.lexically_normal ⟨false, [p]⟩ = ⟨false, [p]⟩ := by
    by_cases h1 : p = "."
    · subst h1; exact absurd hv (by decide)
    · by_cases h2 : p = ".."
      · subst h2; exact absurd hv (by decide)
      · by_cases h3 : p = ""
        · subst h3; exact absurd hv (by decide)
        · exact lexically_normal_single p h1 h2 h3
  refine ⟨hnorm, ?_⟩
  rw [hnorm] at hok
  by_cases hd : Core.is_directory fs (cur.path.app ⟨false, [p]⟩) = true
  · exact hd
  · rw [if_pos (by simpa using hd)] at hok
    exact absurd hok (by simp)

theorem require_walk_resolved :
    ∀ (segs : List String) (fs : Core.FS) (cur : Core.Node) (t : Core.NodeType) (n : Core.Node),
      Core.resolvesTo fs cur segs roStates t = .ok n →
      Core.require_walk fs cur segs roStates t = (.ok n, fs) := by
  intro segs
  induction segs with
  | nil =>
    intro fs cur t n h
    simp only [Core.resolvesTo, Except.ok.injEq] at h
    subst h
    rfl
  | cons p rest ih =>
    intro fs cur t n h
    cases rest with
    | nil =>
      replace h : Core.get_node fs cur ⟨false, [p]⟩ roStates t = .ok n := h
      have hd := (get_node_single_ok h).2
      show Core.require_step fs cur p roStates t = (.ok n, fs)
      unfold Core.require_step
      rw [if_pos (by simpa using hd), h]
    | cons q rest2 =>
      simp only [Core.resolvesTo] at h
      cases hg : Core.get_node fs cur ⟨false, [p]⟩ roStates Core.NodeType.Group with
      | error e => rw [hg] at h; exact absurd h (by simp)
      | ok next =>
        rw [hg] at h
        have hd := (get_node_single_ok hg).2
        simp only [Core.require_walk]
        unfold Core.require_step
        rw [if_pos (by simpa using hd), hg]
        exact ih fs next t n h

/-- C10: require_node checks only that the File is open, not that it is
writable: a Closed file fails the open check; when every segment of the
relative path already exists with the expected node types (resolvesTo
succeeds), require_node succeeds even in the ReadOnly state, leaving the
filesystem unchanged; the write-capable state is demanded only inside
create_node_immediate, which is reached when a segment is missing. -/
theorem C10_require_checks_open_only :
    (∀ fs node name t, Core.require_node fs node name closedStates t
        = (.error .closedFile, fs)) ∧
    (∀ fs node name t, Core.create_node_immediate fs node name roStates t
        = (.error .readOnlyFile, fs)) ∧
    (∀ fs node name t n,
        Core.is_node_group node = true →
        Core.is_valid_node_normalized_relpath name.lexically_normal = true →
        Core.resolvesTo fs node name.lexically_normal.comps roStates t = .ok n →
        Core.require_node fs node name roStates t = (.ok n, fs)) := by
  refine ⟨fun fs node name t => rfl, fun fs node name t => rfl, ?_⟩
  intro fs node name t n hg hv hres
  unfold Core.require_node
  show (if ¬ Core.is_node_group node = true then _ else _ : Except Core.Err Core.Node × Core.FS)
      = (.ok n, fs)
  rw [if_neg (by simpa using hg)]
  rw [if_neg (by simpa using hv)]
  exact require_walk_resolved _ fs node t n hres

/-- Witness for C10: on the filesystem with the existing Group g1, resolving
`g1` as a Group via require_node succeeds in the ReadOnly state. -/
theorem C10_require_checks_open_only_witness :
    Core.require_node fs5 rootNode ⟨false, ["g1"]⟩ roStates Core.NodeType.Group
      = (.ok ⟨⟨1, Core.NodeType.Group⟩, ⟨false, ["f1"]⟩, ⟨false, ["g1"]⟩⟩, fs5) :=
  C10_require_checks_open_only.2.2 fs5 rootNode ⟨false, ["g1"]⟩ Core.NodeType.Group
    ⟨⟨1, Core.NodeType.Group⟩, ⟨false, ["f1"]⟩, ⟨false, ["g1"]⟩⟩
    (by decide) (by decide) (by decide)

theorem fsLookup_mem {fs : Core.FS} {k : List String} {e : Core.FsEntry}
    (h : Core.fsLookup fs k = some e) : (k, e) ∈ fs := by
  induction fs with
  | nil => simp [Core.fsLookup] at h
  | cons kv rest ih =>
    obtain ⟨k2, e2⟩ := kv
    simp only [Core.fsLookup] at h
    by_cases hk : k2 = k
    · rw [if_pos hk] at h
      injection h with he
      subst hk
      subst he
      exact List.mem_cons_self _ _
    · rw [if_neg hk] at h
      exact List.mem_cons_of_mem _ (ih h)

theorem fsLookup_insert_self (fs : Core.FS) (k : List String) (e : Core.FsEntry) :
    Core.fsLookup (Core.fsInsert fs k e) k = some e := by
  simp [Core.fsInsert, Core.fsLookup]

theorem fsLookup_insert_ne (fs : Core.FS) (k : List String) (e : Core.FsEntry)
    (k2 : List String) (h : k ≠ k2) :
    Core.fsLookup (Core.fsInsert fs k e) k2 = Core.fsLookup fs k2 := by
  simp [Core.fsInsert, Core.fsLookup, h]

theorem goodFSb_to_goodP (fs : Core.FS) (h : Core.goodFSb fs = true) : Core.goodP fs := by
  intro k x hk hsome
  obtain ⟨e, he⟩ := Option.isSome_iff_exists.mp hsome
  have hmem := fsLookup_mem he
  have hall := List.all_eq_true.mp h _ hmem
  simp only [Bool.or_eq_true, decide_eq_true_eq, beq_iff_eq] at hall
  rcases hall with h1 | h2
  · exfalso
    simp only [List.length_append, List.length_singleton] at h1
    have : k.length ≠ 0 := fun hlen => hk (List.eq_nil_of_length_eq_zero hlen)
    omega
  · rwa [List.dropLast_concat] at h2

theorem groupExtends_refl (fs : Core.FS) :
    Core.fsPreserves fs fs ∧ Core.onlyGroupAdds fs fs :=
  ⟨fun _ _ h => h, fun _ hne => absurd rfl hne⟩

theorem groupExtends_trans {fs1 fs2 fs3 : Core.FS}
    (h12 : Core.fsPreserves fs1 fs2 ∧ Core.onlyGroupAdds fs1 fs2)
    (h23 : Core.fsPreserves fs2 fs3 ∧ Core.onlyGroupAdds fs2 fs3) :
    Core.fsPreserves fs1 fs3 ∧ Core.onlyGroupAdds fs1 fs3 := by
  obtain ⟨p12, a12⟩ := h12
  obtain ⟨p23, a23⟩ := h23
  constructor
  · intro k e h
    exact p23 k e (p12 k e h)
  · intro k hne
    by_cases h2 : Core.fsLookup fs3 k = Core.fsLookup fs2 k
    · have hne1 : Core.fsLookup fs2 k ≠ Core.fsLookup fs1 k := by
        rw [← h2]; exact hne
      rcases a12 k hne1 with ⟨hdir, hmeta⟩ | ⟨q, hq, hmeta, hdir⟩
      · exact Or.inl ⟨p23 k _ hdir, p23 _ _ hmeta⟩
      · exact Or.inr ⟨q, hq, p23 _ _ hmeta, p23 _ _ hdir⟩
    · rcases a23 k h2 with h | h
      · exact Or.inl h
      · exact Or.inr h

theorem concat_eq_concat {k dp : List String} {x y : String}
    (h : k ++ [x] = dp ++ [y]) : k = dp := by
  have := congrArg List.dropLast h
  rwa [List.dropLast_concat, List.dropLast_concat] at this

theorem groupExtends_create_step (fs : Core.FS) (dp : List String)
    (hnil : dp ≠ []) (hnone : Core.fsLookup fs dp = none)
    (hparent : Core.fsLookup fs dp.dropLast = some Core.FsEntry.dir)
    (hgood : Core.goodP fs) :
    Core.fsPreserves fs
        (Core.fsInsert (Core.fsInsert fs dp Core.FsEntry.dir) (dp ++ ["poppel.json"])
          (Core.FsEntry.file (Core.FsData.metaJson ⟨1, Core.NodeType.Group⟩))) ∧
      Core.onlyGroupAdds fs
        (Core.fsInsert (Core.fsInsert fs dp Core.FsEntry.dir) (dp ++ ["poppel.json"])
          (Core.FsEntry.file (Core.FsData.metaJson ⟨1, Core.NodeType.Group⟩))) ∧
      Core.goodP
        (Core.fsInsert (Core.fsInsert fs dp Core.FsEntry.dir) (dp ++ ["poppel.json"])
          (Core.FsEntry.file (Core.FsData.metaJson ⟨1, Core.NodeType.Group⟩))) := by
  have hpjfresh : Core.fsLookup fs (dp ++ ["poppel.json"]) = none := by
    cases hlq : Core.fsLookup fs (dp ++ ["poppel.json"]) with
    | none => rfl
    | some e =>
      exfalso
      have := hgood dp "poppel.json" hnil (by rw [hlq]; rfl)
      rw [this] at hnone
      exact Option.noConfusion hnone
  have hne_dp_pj : dp ++ ["poppel.json"] ≠ dp := by
    intro hcontra
    have := congrArg List.length hcontra
    simp at this
  have hdropne : dp.dropLast ≠ dp := by
    intro hcontra
    have := congrArg List.length hcontra
    have hlt : dp.dropLast.length < dp.length := by
      rw [List.length_dropLast]
      have : dp.length ≠ 0 := fun h0 => hnil (List.eq_nil_of_length_eq_zero h0)
      omega
    omega
  have hdropne2 : dp.dropLast ≠ dp ++ ["poppel.json"] := by
    intro hcontra
    have := congrArg List.length hcontra
    have hlt : dp.dropLast.length < dp.length := by
      rw [List.length_dropLast]
      have : dp.length ≠ 0 := fun h0 => hnil (List.eq_nil_of_length_eq_zero h0)
      omega
    simp only [List.length_append, List.length_singleton] at this
    omega
  have hlook2 : ∀ k, k ≠ dp → k ≠ dp ++ ["poppel.json"] →
      Core.fsLookup (Core.fsInsert (Core.fsInsert fs dp Core.FsEntry.dir)
        (dp ++ ["poppel.json"]) (Core.FsEntry.file (Core.FsData.metaJson
          ⟨1, Core.NodeType.Group⟩))) k = Core.fsLookup fs k := by
    intro k hk1 hk2
    rw [fsLookup_insert_ne _ _ _ _ (fun h => hk2 h.symm),
      fsLookup_insert_ne _ _ _ _ (fun h => hk1 h.symm)]
  have hlookdp : Core.fsLookup (Core.fsInsert (Core.fsInsert fs dp Core.FsEntry.dir)
      (dp ++ ["poppel.json"]) (Core.FsEntry.file (Core.FsData.metaJson
        ⟨1, Core.NodeType.Group⟩))) dp = some Core.FsEntry.dir := by
    rw [fsLookup_insert_ne _ _ _ _ hne_dp_pj, fsLookup_insert_self]
  have hlookpj : Core.fsLookup (Core.fsInsert (Core.fsInsert fs dp Core.FsEntry.dir)
      (dp ++ ["poppel.json"]) (Core.FsEntry.file (Core.FsData.metaJson
        ⟨1, Core.NodeType.Group⟩))) (dp ++ ["poppel.json"])
      = some (Core.FsEntry.file (Core.FsData.metaJson ⟨1, Core.NodeType.Group⟩)) :=
    fsLookup_insert_self _ _ _
  refine ⟨?_, ?_, ?_⟩
  · intro k e hke
    have hk1 : k ≠ dp := by
      intro hcontra
      rw [hcontra, hnone] at hke
      exact Option.noConfusion hke
    have hk2 : k ≠ dp ++ ["poppel.json"] := by
      intro hcontra
      rw [hcontra, hpjfresh] at hke
      exact Option.noConfusion hke
    rw [hlook2 k hk1 hk2]
    exact hke
  · intro k hne
    by_cases hk1 : k = dp
    · subst hk1
      exact Or.inl ⟨hlookdp, hlookpj⟩
    · by_cases hk2 : k = dp ++ ["poppel.json"]
      · subst hk2
        exact Or.inr ⟨dp, rfl, hlookpj, hlookdp⟩
      · exact absurd (hlook2 k hk1 hk2) hne
  · intro k x hk hsome
    by_cases hk1 : k ++ [x] = dp
    · have hkdrop : k = dp.dropLast := by
        have := congrArg List.dropLast hk1
        rwa [List.dropLast_concat] at this
      subst hkdrop
      rw [hlook2 _ hdropne hdropne2]
      exact hparent
    · by_cases hk2 : k ++ [x] = dp ++ ["poppel.json"]
      · have : k = dp := concat_eq_concat hk2
        subst this
        exact hlookdp
      · rw [hlook2 _ hk1 hk2] at hsome
        have hdir := hgood k x hk hsome
        have hkne1 : k ≠ dp := by
          intro hcontra
          rw [hcontra, hnone] at hdir
          exact Option.noConfusion hdir
        have hkne2 : k ≠ dp ++ ["poppel.json"] := by
          intro hcontra
          rw [hcontra, hpjfresh] at hdir
          exact Option.noConfusion hdir
        rw [hlook2 k hkne1 hkne2]
        exact hdir

theorem valid_relpath_facts {p : Core.PathM}
    (h : Core.is_valid_node_normalized_relpath p = true) :
    p.absolute = false ∧ p.comps ≠ [] := by
  unfold Core.is_valid_node_normalized_relpath at h
  by_cases ha : (p.absolute || p.isEmptyPath) = true
  · rw [if_pos ha] at h
    exact absurd h (by simp)
  · simp only [Bool.or_eq_true, not_or] at ha
    obtain ⟨ha1, ha2⟩ := ha
    have habs : p.absolute = false := by
      cases hb : p.absolute
      · rfl
      · exact absurd hb ha1
    refine ⟨habs, ?_⟩
    intro hc
    apply ha2
    unfold Core.PathM.isEmptyPath
    rw [hc, habs]
    rfl

theorem create_node_immediate_spec (fs : Core.FS) (node : Core.Node) (name : Core.PathM)
    (st : Core.FileStates) (t : Core.NodeType) :
    (∃ e, Core.create_node_immediate fs node name st t = (.error e, fs)) ∨
    (Core.create_node_immediate fs node name st t
        = (.ok ⟨⟨1, t⟩, node.root, name.lexically_normal⟩,
            Core.fsInsert
              (Core.fsInsert fs (node.path.app name.lexically_normal).comps Core.FsEntry.dir)
              ((node.path.app name.lexically_normal).comps ++ ["poppel.json"])
              (Core.FsEntry.file (Core.FsData.metaJson ⟨1, t⟩))) ∧
      Core.fsLookup fs (node.path.app name.lexically_normal).comps = none ∧
      Core.fsLookup fs (node.path.app name.lexically_normal).comps.dropLast
        = some Core.FsEntry.dir ∧
      (node.path.app name.lexically_normal).comps ≠ []) := by
  simp only [Core.create_node_immediate]
  cases hopen : Core.assert_file_writable st with
  | error e => exact Or.inl ⟨e, rfl⟩
  | ok u =>
  by_cases hg : Core.is_node_group node = true
  case neg =>
    rw [if_pos (by simpa using hg)]
    exact Or.inl ⟨_, rfl⟩
  case pos =>
  rw [if_neg (by simpa using hg)]
  by_cases hv : Core.is_valid_node_normalized_relpath name.lexically_normal = true
  case neg =>
    rw [if_pos (by simpa using hv)]
    exact Or.inl ⟨_, rfl⟩
  case pos =>
  rw [if_neg (by simpa using hv)]
  by_cases hex : Core.fsExists fs (node.path.app name.lexically_normal) = true
  case pos =>
    rw [if_pos hex]
    exact Or.inl ⟨_, rfl⟩
  case neg =>
  rw [if_neg hex]
  have hnone : Core.fsLookup fs (node.path.app name.lexically_normal).comps = none := by
    have := hex
    unfold Core.fsExists at this
    exact Option.not_isSome_iff_eq_none.mp (by simpa using this)
  by_cases hpar : Core.fsLookup fs (node.path.app name.lexically_normal).comps.dropLast
      = some Core.FsEntry.dir
  case neg =>
    rw [if_pos (by simpa using hpar)]
    exact Or.inl ⟨_, rfl⟩
  case pos =>
  rw [if_neg (by simpa using hpar)]
  refine Or.inr ⟨?_, hnone, hpar, ?_⟩
  · have hw : Core.write_node_meta
        (Core.fsInsert fs (node.path.app name.lexically_normal).comps Core.FsEntry.dir)
        (node.path.app name.lexically_normal) ({ type := t } : Core.NodeMeta)
        = (.ok (), Core.fsInsert
            (Core.fsInsert fs (node.path.app name.lexically_normal).comps Core.FsEntry.dir)
            ((node.path.app name.lexically_normal).comps ++ ["poppel.json"])
            (Core.FsEntry.file (Core.FsData.metaJson ⟨1, t⟩))) := by
      unfold Core.write_node_meta
      rw [if_pos (fsLookup_insert_self fs _ _)]
    rw [hw]
  · have hfacts := valid_relpath_facts hv
    unfold Core.PathM.app
    rw [if_neg (by rw [hfacts.1]; simp)]
    intro hc
    rcases List.append_eq_nil.mp hc with ⟨_, h2⟩
    exact hfacts.2 h2

theorem require_walk_error_extends :
    ∀ (segs : List String) (fs : Core.FS) (cur : Core.Node) (st : Core.FileStates)
      (t : Core.NodeType) (e : Core.Err) (fs2 : Core.FS),
      Core.goodP fs →
      Core.require_walk fs cur segs st t = (.error e, fs2) →
      Core.fsPreserves fs fs2 ∧ Core.onlyGroupAdds fs fs2 := by
  intro segs
  induction segs with
  | nil =>
    intro fs cur st t e fs2 _ h
    exact absurd h (by simp [Core.require_walk])
  | cons p rest ih =>
    intro fs cur st t e fs2 hgood h
    cases rest with
    | nil =>
      replace h : Core.require_step fs cur p st t = (.error e, fs2) := h
      unfold Core.require_step at h
      by_cases hd : Core.is_directory fs (cur.path.app ⟨false, [p]⟩) = true
      · rw [if_pos hd] at h
        injection h with h1 h2
        subst h2
        exact groupExtends_refl fs
      · rw [if_neg hd] at h
        rcases create_node_immediate_spec fs cur ⟨false, [p]⟩ st t with ⟨e2, hc⟩ | ⟨hc, _, _, _⟩
        · rw [hc] at h
          injection h with h1 h2
          subst h2
          exact groupExtends_refl fs
        · rw [hc] at h
          injection h with h1 h2
          exact absurd h1 (by simp)
    | cons q rest2 =>
      rw [show Core.require_walk fs cur (p :: q :: rest2) st t
          = (match Core.require_step fs cur p st Core.NodeType.Group with
             | (.error e, fs1) => (.error e, fs1)
             | (.ok next, fs1) => Core.require_walk fs1 next (q :: rest2) st t) from rfl] at h
      unfold Core.require_step at h
      by_cases hd : Core.is_directory fs (cur.path.app ⟨false, [p]⟩) = true
      · rw [if_pos hd] at h
        cases hg : Core.get_node fs cur ⟨false, [p]⟩ st Core.NodeType.Group with
        | error e2 =>
          rw [hg] at h
          simp only at h
          injection h with h1 h2
          subst h2
          exact groupExtends_refl fs
        | ok next =>
          rw [hg] at h
          simp only at h
          exact ih fs next st t e fs2 hgood h
      · rw [if_neg hd] at h
        rcases create_node_immediate_spec fs cur ⟨false, [p]⟩ st Core.NodeType.Group
          with ⟨e2, hc⟩ | ⟨hc, hnone, hpar, hnil⟩
        · rw [hc] at h
          simp only at h
          injection h with h1 h2
          subst h2
          exact groupExtends_refl fs
        · rw [hc] at h
          simp only at h
          have hstep := groupExtends_create_step fs
            (cur.path.app (Core.PathM.lexically_normal ⟨false, [p]⟩)).comps hnil hnone hpar hgood
          exact groupExtends_trans ⟨hstep.1, hstep.2.1⟩
            (ih _ _ st t e fs2 hstep.2.2 h)

/-- C6: if require_node fails partway through a multi-segment path, every entry
of the initial filesystem is still present unchanged afterwards (no rollback of
the Group nodes already created, and the tree at and below the failing segment
is untouched), and every entry added before the failure is a freshly created
Group directory together with its Group descriptor — no node of any other type
is installed anywhere, in particular not at the failing segment. -/
theorem C6_require_partial_failure (fs : Core.FS) (node : Core.Node) (name : Core.PathM)
    (st : Core.FileStates) (t : Core.NodeType) (e : Core.Err) (fs2 : Core.FS)
    (hgood : Core.goodFSb fs = true)
    (h : Core.require_node fs node name st t = (.error e, fs2)) :
    Core.fsPreserves fs fs2 ∧ Core.onlyGroupAdds fs fs2 := by
  unfold Core.require_node at h
  cases hopen : Core.assert_file_open st with
  | error e2 =>
    rw [hopen] at h
    injection h with h1 h2
    subst h2
    exact groupExtends_refl fs
  | ok u =>
  rw [hopen] at h
  simp only at h
  by_cases hg : Core.is_node_group node = true
  case neg =>
    rw [if_pos (by simpa using hg)] at h
    injection h with h1 h2
    subst h2
    exact groupExtends_refl fs
  case pos =>
  rw [if_neg (by simpa using hg)] at h
  by_cases hv : Core.is_valid_node_normalized_relpath name.lexically_normal = true
  case neg =>
    rw [if_pos (by simpa using hv)] at h
    injection h with h1 h2
    subst h2
    exact groupExtends_refl fs
  case pos =>
  rw [if_neg (by simpa using hv)] at h
  exact require_walk_error_extends _ fs node st t e fs2 (goodFSb_to_goodP fs hgood) h

/-- Witness for C6: the concrete failing walk `require(root, g1/d1/x, Group)`
errors with a type mismatch after creating two Groups; the theorem applies and
yields the no-rollback facts. -/
theorem C6_require_partial_failure_witness :
    Core.fsPreserves fs6w fs6wAfter ∧ Core.onlyGroupAdds fs6w fs6wAfter :=
  C6_require_partial_failure fs6w rootNode ⟨false, ["g1", "d1", "x"]⟩ rwStates
    Core.NodeType.Group Core.Err.typeMismatch fs6wAfter (by decide) (by decide)

theorem strFind_nil (pat : List Char) (hpat : pat ≠ []) : Npy.strFind [] pat = none := by
  unfold Npy.strFind
  rw [if_neg]
  intro hcontra
  have := List.isPrefixOf_iff_prefix.mp hcontra
  rw [List.prefix_nil] at this
  exact hpat this

theorem strFind_cons (c : Char) (t pat : List Char) :
    Npy.strFind (c :: t) pat =
      if pat.isPrefixOf (c :: t) then some 0 else (Npy.strFind t pat).map (· + 1) := by
  rfl

theorem strFind_of_isPrefix {hay pat : List Char} (h : pat <+: hay) :
    Npy.strFind hay pat = some 0 := by
  unfold Npy.strFind
  rw [if_pos (List.isPrefixOf_iff_prefix.mpr h)]

theorem prefix_append_split {pat a b : List Char} (h : pat <+: a ++ b) :
    pat <+: a ∨ a <+: pat := by
  by_cases hlen : pat.length ≤ a.length
  · exact Or.inl (List.prefix_of_prefix_length_le h (List.prefix_append a b) hlen)
  · exact Or.inr (List.prefix_of_prefix_length_le (List.prefix_append a b) h (by omega))

theorem strFind_append_of_noStart {a : List Char} (pat : List Char)
    (hns : Npy.noStart a pat = true) (b : List Char) :
    Npy.strFind (a ++ b) pat = (Npy.strFind b pat).map (· + a.length) := by
  induction a with
  | nil =>
    simp only [List.nil_append, List.length_nil]
    cases Npy.strFind b pat <;> simp
  | cons c rest ih =>
    simp only [Npy.noStart, Bool.and_eq_true, Bool.not_eq_true'] at hns
    obtain ⟨hmp, hns2⟩ := hns
    have hnp : ¬ pat <+: c :: (rest ++ b) := by
      intro hcontra
      rcases prefix_append_split (show pat <+: (c :: rest) ++ b from hcontra) with h | h
      · rw [Npy.mutPrefix] at hmp
        simp [List.isPrefixOf_iff_prefix.mpr h] at hmp
      · rw [Npy.mutPrefix] at hmp
        simp [List.isPrefixOf_iff_prefix.mpr h] at hmp
    show Npy.strFind (c :: (rest ++ b)) pat = _
    rw [strFind_cons]
    rw [if_neg (fun hp => hnp (List.isPrefixOf_iff_prefix.mp hp))]
    rw [ih hns2]
    cases Npy.strFind b pat <;> simp
    omega

theorem noStart_append {a b pat : List Char} (ha : Npy.noStart a pat = true)
    (hb : Npy.noStart b pat = true) : Npy.noStart (a ++ b) pat = true := by
  induction a with
  | nil => simpa using hb
  | cons c rest ih =>
    simp only [Npy.noStart, Bool.and_eq_true, Bool.not_eq_true'] at ha
    obtain ⟨hmp, hns2⟩ := ha
    show Npy.noStart (c :: (rest ++ b)) pat = true
    simp only [Npy.noStart, Bool.and_eq_true, Bool.not_eq_true']
    refine ⟨?_, ih hns2⟩
    rw [Npy.mutPrefix] at hmp ⊢
    simp only [Bool.or_eq_false_iff] at hmp ⊢
    obtain ⟨hm1, hm2⟩ := hmp
    constructor
    · rw [Bool.eq_false_iff]
      intro hcontra
      have hpre := List.isPrefixOf_iff_prefix.mp hcontra
      have : (c :: rest) <+: pat :=
        List.IsPrefix.trans (List.prefix_append (c :: rest) b) hpre
      rw [List.isPrefixOf_iff_prefix.mpr this] at hm1
      exact Bool.noConfusion hm1
    · rw [Bool.eq_false_iff]
      intro hcontra
      have hpre := List.isPrefixOf_iff_prefix.mp hcontra
      rcases prefix_append_split (show pat <+: (c :: rest) ++ b from hpre) with h | h
      · rw [List.isPrefixOf_iff_prefix.mpr h] at hm2
        exact Bool.noConfusion hm2
      · rw [List.isPrefixOf_iff_prefix.mpr h] at hm1
        exact Bool.noConfusion hm1

theorem noStart_of_ne_head {a : List Char} {q : Char} {pat2 : List Char}
    (h : ∀ c ∈ a, c ≠ q) : Npy.noStart a (q :: pat2) = true := by
  induction a with
  | nil => rfl
  | cons c rest ih =>
    simp only [Npy.noStart, Bool.and_eq_true, Bool.not_eq_true']
    refine ⟨?_, ih (fun c2 hc2 => h c2 (List.mem_cons_of_mem _ hc2))⟩
    rw [Npy.mutPrefix]
    simp only [Bool.or_eq_false_iff]
    have hc : c ≠ q := h c (List.mem_cons_self _ _)
    constructor
    · rw [Bool.eq_false_iff]
      intro hcontra
      have := List.isPrefixOf_iff_prefix.mp hcontra
      rw [List.cons_prefix_cons] at this
      exact hc this.1
    · rw [Bool.eq_false_iff]
      intro hcontra
      have := List.isPrefixOf_iff_prefix.mp hcontra
      rw [List.cons_prefix_cons] at this
      exact hc this.1.symm

theorem strFind_none_of_noStart {a pat : List Char} (hpat : pat ≠ [])
    (hns : Npy.noStart a pat = true) : Npy.strFind a pat = none := by
  have h := strFind_append_of_noStart pat hns []
  rw [List.append_nil] at h
  rw [h, strFind_nil pat hpat]
  rfl

theorem findFirstNotOf_cons (c : Char) (t set : List Char) :
    Npy.findFirstNotOf (c :: t) set =
      if c ∈ set then (Npy.findFirstNotOf t set).map (· + 1) else some 0 := rfl

theorem findFirstNotOf_replicate_space (n : Nat) (rest : List Char) :
    Npy.findFirstNotOf (List.replicate n ' ' ++ rest) Npy.whitespaceChars
      = (Npy.findFirstNotOf rest Npy.whitespaceChars).map (· + n) := by
  induction n with
  | zero =>
    simp only [List.replicate_zero, List.nil_append]
    cases Npy.findFirstNotOf rest Npy.whitespaceChars <;> simp
  | succ m ih =>
    show Npy.findFirstNotOf (' ' :: (List.replicate m ' ' ++ rest)) _ = _
    rw [findFirstNotOf_cons, if_pos (by decide), ih]
    cases Npy.findFirstNotOf rest Npy.whitespaceChars <;> simp
    omega

theorem digit_char_facts {c : Char} (h1 : 48 ≤ c.toNat) (h2 : c.toNat ≤ 57) :
    c ≠ ',' ∧ c ≠ ' ' ∧ c ≠ Npy.tabChar ∧ c ≠ ')' ∧ c ≠ '(' ∧ c ≠ Npy.squote ∧
      c ≠ Npy.nlChar ∧ c ≠ 'f' ∧ c ≠ 's' := by
  refine ⟨?_, ?_, ?_, ?_, ?_, ?_, ?_, ?_, ?_⟩ <;>
    (intro h; subst h; revert h1 h2; decide)

theorem digit_not_ws {c : Char} (h1 : 48 ≤ c.toNat) (h2 : c.toNat ≤ 57) :
    c ∉ Npy.whitespaceChars := by
  intro hc
  have hfacts := digit_char_facts h1 h2
  simp only [Npy.whitespaceChars, List.mem_cons, List.not_mem_nil, or_false] at hc
  rcases hc with h | h
  · exact hfacts.2.1 h
  · exact hfacts.2.2.1 h

theorem trim_pad (m n : Nat) (x : List Char) (hne : x ≠ [])
    (hhead : x.headD ' ' ∉ Npy.whitespaceChars)
    (hlast : x.getLastD ' ' ∉ Npy.whitespaceChars) :
    Npy.trim (List.replicate m ' ' ++ x ++ List.replicate n ' ') = x := by
  obtain ⟨c, t, hx⟩ : ∃ c t, x = c :: t := by
    cases x with
    | nil => exact absurd rfl hne
    | cons c t => exact ⟨c, t, rfl⟩
  obtain ⟨d, t2, hxr⟩ : ∃ d t2, x.reverse = d :: t2 := by
    cases hh : x.reverse with
    | nil => exact absurd (List.reverse_eq_nil_iff.mp hh) hne
    | cons d t2 => exact ⟨d, t2, rfl⟩
  have hd : x.getLastD ' ' = d := by
    have h1 : x.getLast? = some d := by rw [← List.head?_reverse, hxr]; rfl
    rw [List.getLastD_eq_getLast?, h1]
    rfl
  have hcnotws : c ∉ Npy.whitespaceChars := by
    have : x.headD ' ' = c := by rw [hx]; rfl
    rwa [this] at hhead
  have hdnotws : d ∉ Npy.whitespaceChars := by rwa [hd] at hlast
  have hfirst : Npy.findFirstNotOf (List.replicate m ' ' ++ x ++ List.replicate n ' ')
      Npy.whitespaceChars = some m := by
    rw [List.append_assoc, findFirstNotOf_replicate_space, hx]
    show (Npy.findFirstNotOf (c :: (t ++ List.replicate n ' ')) _).map _ = _
    rw [findFirstNotOf_cons, if_neg hcnotws]
    simp
  have hlastidx : Npy.findLastNotOf (List.replicate m ' ' ++ x ++ List.replicate n ' ')
      Npy.whitespaceChars = some (m + x.length - 1) := by
    unfold Npy.findLastNotOf
    have hrev : (List.replicate m ' ' ++ x ++ List.replicate n ' ').reverse
        = List.replicate n ' ' ++ (x.reverse ++ List.replicate m ' ') := by
      simp [List.reverse_append, List.append_assoc]
    rw [hrev, findFirstNotOf_replicate_space, hxr]
    show ((Npy.findFirstNotOf (d :: (t2 ++ List.replicate m ' ')) _).map _).map _ = _
    rw [findFirstNotOf_cons, if_neg hdnotws]
    have hxlen : x.length = t2.length + 1 := by
      have := congrArg List.length hxr
      simpa [Nat.add_comm] using this
    simp only [Option.map_some', List.length_append, List.length_replicate, hxlen]
    congr 1
    omega
  unfold Npy.trim
  rw [hfirst, hlastidx]
  have hdrop : (List.replicate m ' ' ++ x ++ List.replicate n ' ').drop m
      = x ++ List.replicate n ' ' := by
    rw [List.append_assoc]
    exact List.drop_left' (by simp)
  show List.take (m + x.length - 1 - m + 1)
      (List.drop m (List.replicate m ' ' ++ x ++ List.replicate n ' ')) = x
  rw [hdrop]
  have hxpos : 1 ≤ x.length := by
    rw [hx]
    simp
  rw [show m + x.length - 1 - m + 1 = x.length by omega]
  exact List.take_left x _

theorem headD_mem {x : List Char} (hne : x ≠ []) : x.headD ' ' ∈ x := by
  cases x with
  | nil => exact absurd rfl hne
  | cons c t => simp

theorem getLastD_mem {x : List Char} (hne : x ≠ []) : x.getLastD ' ' ∈ x := by
  obtain ⟨d, t2, hxr⟩ : ∃ d t2, x.reverse = d :: t2 := by
    cases hh : x.reverse with
    | nil => exact absurd (List.reverse_eq_nil_iff.mp hh) hne
    | cons d t2 => exact ⟨d, t2, rfl⟩
  have h1 : x.getLast? = some d := by rw [← List.head?_reverse, hxr]; rfl
  rw [List.getLastD_eq_getLast?, h1]
  have : d ∈ x.reverse := by rw [hxr]; simp
  simpa using this

theorem trim_eq_self {x : List Char} (hne : x ≠ [])
    (hhead : x.headD ' ' ∉ Npy.whitespaceChars)
    (hlast : x.getLastD ' ' ∉ Npy.whitespaceChars) :
    Npy.trim x = x := by
  have := trim_pad 0 0 x hne hhead hlast
  simpa using this

theorem trim_lead_space {x : List Char} (m : Nat) (hne : x ≠ [])
    (hhead : x.headD ' ' ∉ Npy.whitespaceChars)
    (hlast : x.getLastD ' ' ∉ Npy.whitespaceChars) :
    Npy.trim (List.replicate m ' ' ++ x) = x := by
  have := trim_pad m 0 x hne hhead hlast
  simpa using this

theorem trim_digits {dig : List Char} (hne : dig ≠ [])
    (hdig : ∀ c ∈ dig, 48 ≤ c.toNat ∧ c.toNat ≤ 57) (m : Nat) :
    Npy.trim (List.replicate m ' ' ++ dig) = dig := by
  refine trim_lead_space m hne ?_ ?_
  · have hm := hdig _ (headD_mem hne)
    exact digit_not_ws hm.1 hm.2
  · have hm := hdig _ (getLastD_mem hne)
    exact digit_not_ws hm.1 hm.2

theorem noStart_digits {dig : List Char}
    (hdig : ∀ c ∈ dig, 48 ≤ c.toNat ∧ c.toNat ≤ 57) (q : Char) (pat2 : List Char)
    (hq : ∀ c, 48 ≤ c.toNat → c.toNat ≤ 57 → c ≠ q) :
    Npy.noStart dig (q :: pat2) = true :=
  noStart_of_ne_head (fun c hc => hq c (hdig c hc).1 (hdig c hc).2)

theorem noStart_rep_space (n : Nat) (q : Char) (pat2 : List Char) (hq : (' ' : Char) ≠ q) :
    Npy.noStart (List.replicate n ' ') (q :: pat2) = true :=
  noStart_of_ne_head (fun c hc => by rw [(List.mem_replicate.mp hc).2]; exact hq)

theorem parse_shape_aux_nil (fuel : Nat) (acc : List Int) :
    Npy.parse_shape_aux fuel [] acc = acc := by
  cases fuel <;> rfl

theorem parse_shape_aux_ne_nil (fuel : Nat) (cs : List Char) (acc : List Int) (h : cs ≠ []) :
    Npy.parse_shape_aux (fuel + 1) cs acc =
      (match Npy.strFind cs [','] with
       | none =>
         if (Npy.trim (cs.take cs.length)).isEmpty then acc
         else acc ++ [(Npy.fromCharsInt (Npy.trim (cs.take cs.length))).getD 0]
       | some l =>
         Npy.parse_shape_aux fuel (cs.drop (l + 1))
           (if (Npy.trim (cs.take l)).isEmpty then acc
            else acc ++ [(Npy.fromCharsInt (Npy.trim (cs.take l))).getD 0])) := by
  obtain ⟨c, t, rfl⟩ := List.exists_cons_of_ne_nil h
  show (let loc_comma := Npy.strFind (c :: t) [',']
        let token := Npy.trim ((c :: t).take (loc_comma.getD (c :: t).length))
        let acc1 := if token.isEmpty then acc else acc ++ [(Npy.fromCharsInt token).getD 0]
        match loc_comma with
        | none => acc1
        | some l => Npy.parse_shape_aux fuel ((c :: t).drop (l + 1)) acc1) = _
  cases hf : Npy.strFind (c :: t) [','] <;> simp [hf]

theorem intDecimal_digits {a : Int} (ha : 0 ≤ a) :
    ∀ c ∈ Npy.intDecimal a, 48 ≤ c.toNat ∧ c.toNat ≤ 57 := by
  rw [Npy.intDecimal_nonneg a ha]
  exact Npy.natDecimal_digits _

theorem intDecimal_ne_nil {a : Int} (ha : 0 ≤ a) : Npy.intDecimal a ≠ [] := by
  rw [Npy.intDecimal_nonneg a ha]
  exact Npy.natDecimal_ne_nil _

theorem fromCharsInt_getD {a : Int} (ha : 0 ≤ a) :
    (Npy.fromCharsInt (Npy.intDecimal a)).getD 0 = a := by
  rw [Npy.fromCharsInt_intDecimal a ha]
  rfl

theorem parse_shape_aux_items :
    ∀ (shape : List Int), shape ≠ [] → (∀ d ∈ shape, 0 ≤ d) →
    ∀ (lead fuel : Nat) (acc : List Int),
      lead + (Npy.gen_shape_items shape).length + 1 ≤ fuel →
      Npy.parse_shape_aux fuel (List.replicate lead ' ' ++ Npy.gen_shape_items shape) acc
        = acc ++ shape := by
  intro shape
  induction shape with
  | nil => intro h; exact absurd rfl h
  | cons a rest ih =>
    intro _ hpos lead fuel acc hfuel
    have ha : 0 ≤ a := hpos a (by simp)
    have hdig := intDecimal_digits ha
    have hne := intDecimal_ne_nil ha
    have hlen1 : 1 ≤ (Npy.intDecimal a).length := by
      cases hl : Npy.intDecimal a with
      | nil => exact absurd hl hne
      | cons c t => simp
    cases rest with
    | nil =>
      have hitems : Npy.gen_shape_items [a] = Npy.intDecimal a := rfl
      rw [hitems] at hfuel ⊢
      obtain ⟨f, rfl⟩ : ∃ f, fuel = f + 1 := by
        cases fuel with
        | zero => omega
        | succ f => exact ⟨f, rfl⟩
      have hcs : List.replicate lead ' ' ++ Npy.intDecimal a ≠ [] := by
        intro hcontra
        rcases List.append_eq_nil.mp hcontra with ⟨_, h2⟩
        exact hne h2
      rw [parse_shape_aux_ne_nil f _ acc hcs]
      have hfind : Npy.strFind (List.replicate lead ' ' ++ Npy.intDecimal a) [','] = none := by
        refine strFind_none_of_noStart (by simp) ?_
        refine noStart_append (noStart_rep_space lead ',' [] (by decide)) ?_
        exact noStart_digits hdig ',' []
          (fun c h1 h2 => (digit_char_facts h1 h2).1)
      rw [hfind]
      rw [List.take_length]
      rw [trim_digits hne hdig lead]
      rw [if_neg (by simp [List.isEmpty_iff, hne])]
      rw [fromCharsInt_getD ha]
    | cons b rest2 =>
      have hitems : Npy.gen_shape_items (a :: b :: rest2)
          = (Npy.intDecimal a ++ [',', ' ']) ++ Npy.gen_shape_items (b :: rest2) := rfl
      rw [hitems] at hfuel ⊢
      obtain ⟨f, rfl⟩ : ∃ f, fuel = f + 1 := by
        cases fuel with
        | zero => simp at hfuel
        | succ f => exact ⟨f, rfl⟩
      have hsplit : List.replicate lead ' ' ++ ((Npy.intDecimal a ++ [',', ' '])
            ++ Npy.gen_shape_items (b :: rest2))
          = (List.replicate lead ' ' ++ Npy.intDecimal a)
            ++ ([','] ++ (' ' :: Npy.gen_shape_items (b :: rest2))) := by
        simp [List.append_assoc]
      have hcs : List.replicate lead ' ' ++ ((Npy.intDecimal a ++ [',', ' '])
            ++ Npy.gen_shape_items (b :: rest2)) ≠ [] := by
        rw [hsplit]
        intro hcontra
        rcases List.append_eq_nil.mp hcontra with ⟨h1, h2⟩
        rcases List.append_eq_nil.mp h1 with ⟨_, h3⟩
        exact hne h3
      rw [parse_shape_aux_ne_nil f _ acc hcs]
      have hfind : Npy.strFind (List.replicate lead ' ' ++ ((Npy.intDecimal a ++ [',', ' '])
            ++ Npy.gen_shape_items (b :: rest2))) [',']
          = some (lead + (Npy.intDecimal a).length) := by
        rw [hsplit]
        rw [strFind_append_of_noStart [','] ?_ _]
        · rw [strFind_of_isPrefix (List.prefix_append [','] _)]
          simp [Nat.add_comm]
        · refine noStart_append (noStart_rep_space lead ',' [] (by decide)) ?_
          exact noStart_digits hdig ',' [] (fun c h1 h2 => (digit_char_facts h1 h2).1)
      rw [hfind]
      dsimp only
      have htake : (List.replicate lead ' ' ++ ((Npy.intDecimal a ++ [',', ' '])
            ++ Npy.gen_shape_items (b :: rest2))).take (lead + (Npy.intDecimal a).length)
          = List.replicate lead ' ' ++ Npy.intDecimal a := by
        rw [hsplit]
        exact List.take_left' (by simp)
      rw [htake, trim_digits hne hdig lead]
      rw [if_neg (by simp [List.isEmpty_iff, hne])]
      rw [fromCharsInt_getD ha]
      have hdrop : (List.replicate lead ' ' ++ ((Npy.intDecimal a ++ [',', ' '])
            ++ Npy.gen_shape_items (b :: rest2))).drop (lead + (Npy.intDecimal a).length + 1)
          = List.replicate 1 ' ' ++ Npy.gen_shape_items (b :: rest2) := by
        have hsplit2 : List.replicate lead ' ' ++ ((Npy.intDecimal a ++ [',', ' '])
              ++ Npy.gen_shape_items (b :: rest2))
            = ((List.replicate lead ' ' ++ Npy.intDecimal a) ++ [','])
              ++ (' ' :: Npy.gen_shape_items (b :: rest2)) := by
          simp [List.append_assoc]
        rw [hsplit2]
        rw [List.drop_left' (by simp; omega)]
        rfl
      rw [hdrop]
      rw [ih (by simp) (fun d hd => hpos d (List.mem_cons_of_mem _ hd)) 1 f (acc ++ [a]) ?_]
      · simp
      · simp only [List.length_append, List.length_cons] at hfuel ⊢
        omega

theorem parse_shape_gen (shape : List Int) (h : ∀ d ∈ shape, 0 ≤ d) :
    Npy.parse_shape (Npy.gen_shape shape) = shape := by
  match shape with
  | [] => rfl
  | [n] =>
    have hn : 0 ≤ n := h n (by simp)
    have hdig := intDecimal_digits hn
    have hne := intDecimal_ne_nil hn
    show Npy.parse_shape (Npy.intDecimal n ++ [',']) = [n]
    unfold Npy.parse_shape
    have hlen : (Npy.intDecimal n ++ [',']).length = (Npy.intDecimal n).length + 1 := by simp
    rw [hlen]
    rw [parse_shape_aux_ne_nil _ _ [] (by simp)]
    have hfind : Npy.strFind (Npy.intDecimal n ++ [',']) [',']
        = some (Npy.intDecimal n).length := by
      rw [strFind_append_of_noStart [',']
        (noStart_digits hdig ',' [] (fun c h1 h2 => (digit_char_facts h1 h2).1)) _]
      rw [strFind_of_isPrefix (List.prefix_refl [','])]
      simp
    rw [hfind]
    dsimp only
    have htake : (Npy.intDecimal n ++ [',']).take (Npy.intDecimal n).length
        = Npy.intDecimal n := List.take_left _ _
    rw [htake]
    have htrim : Npy.trim (Npy.intDecimal n) = Npy.intDecimal n := by
      have := trim_digits hne hdig 0
      simpa using this
    rw [htrim]
    rw [if_neg (by simp [List.isEmpty_iff, hne])]
    rw [fromCharsInt_getD hn]
    have hdrop : (Npy.intDecimal n ++ [',']).drop ((Npy.intDecimal n).length + 1) = [] := by
      rw [← hlen]
      exact List.drop_length _
    rw [hdrop, parse_shape_aux_nil]
    rfl
  | a :: b :: rest =>
    have hgen : Npy.gen_shape (a :: b :: rest) = Npy.gen_shape_items (a :: b :: rest) := rfl
    rw [hgen]
    unfold Npy.parse_shape
    have := parse_shape_aux_items (a :: b :: rest) (by simp) h 0
      ((Npy.gen_shape_items (a :: b :: rest)).length + 1) [] (by simp)
    simpa using this

theorem headD_append_left {x : List Char} (y : List Char) (hne : x ≠ []) :
    (x ++ y).headD ' ' = x.headD ' ' := by
  obtain ⟨c, t, rfl⟩ := List.exists_cons_of_ne_nil hne
  rfl

theorem getLastD_append_right (x : List Char) {y : List Char} (hne : y ≠ []) :
    (x ++ y).getLastD ' ' = y.getLastD ' ' := by
  obtain ⟨d, t2, hxr⟩ : ∃ d t2, y.reverse = d :: t2 := by
    cases hh : y.reverse with
    | nil => exact absurd (List.reverse_eq_nil_iff.mp hh) hne
    | cons d t2 => exact ⟨d, t2, rfl⟩
  have h1 : y.getLast? = some d := by rw [← List.head?_reverse, hxr]; rfl
  have h2 : (x ++ y).getLast? = some d := by
    rw [← List.head?_reverse, List.reverse_append, hxr]
    rfl
  rw [List.getLastD_eq_getLast?, List.getLastD_eq_getLast?, h1, h2]

theorem parse_gen_descr (d : Npy.Dtype) (hpos : 0 < d.itemsize)
    (hdvd : Npy.kind_size_multiplier d.kind ∣ d.itemsize) :
    Npy.parse_descr (Npy.gen_descr d) = d := by
  obtain ⟨b, k, its⟩ := d
  simp only at hpos hdvd
  have hmult := Npy.kind_size_multiplier_pos k
  have hq : 0 ≤ its / Npy.kind_size_multiplier k :=
    Int.ediv_nonneg (le_of_lt hpos) (le_of_lt hmult)
  unfold Npy.gen_descr Npy.parse_descr
  simp only [Npy.fromCharsInt_intDecimal _ hq, Option.getD_some, Npy.Dtype.mk.injEq,
    true_and]
  exact Int.ediv_mul_cancel hdvd

theorem gen_descr_form (d : Npy.Dtype) (hpos : 0 < d.itemsize) :
    ∃ dig, Npy.gen_descr d = d.byteorder :: d.kind :: dig ∧ dig ≠ [] ∧
      (∀ c ∈ dig, 48 ≤ c.toNat ∧ c.toNat ≤ 57) := by
  have hmult := Npy.kind_size_multiplier_pos d.kind
  have hq : 0 ≤ d.itemsize / Npy.kind_size_multiplier d.kind :=
    Int.ediv_nonneg (le_of_lt hpos) (le_of_lt hmult)
  exact ⟨Npy.intDecimal (d.itemsize / Npy.kind_size_multiplier d.kind), rfl,
    intDecimal_ne_nil hq, intDecimal_digits hq⟩

theorem gen_shape_items_chars (shape : List Int) (h : ∀ d ∈ shape, 0 ≤ d) :
    ∀ c ∈ Npy.gen_shape_items shape, (48 ≤ c.toNat ∧ c.toNat ≤ 57) ∨ c = ',' ∨ c = ' ' := by
  induction shape with
  | nil => intro c hc; exact absurd hc (by simp [Npy.gen_shape_items])
  | cons a rest ih =>
    have ha : 0 ≤ a := h a (by simp)
    cases rest with
    | nil =>
      intro c hc
      exact Or.inl (intDecimal_digits ha c hc)
    | cons b rest2 =>
      intro c hc
      have : Npy.gen_shape_items (a :: b :: rest2)
          = (Npy.intDecimal a ++ [',', ' ']) ++ Npy.gen_shape_items (b :: rest2) := rfl
      rw [this] at hc
      rcases List.mem_append.mp hc with hc1 | hc2
      · rcases List.mem_append.mp hc1 with hd | hsep
        · exact Or.inl (intDecimal_digits ha c hd)
        · simp only [List.mem_cons, List.not_mem_nil, or_false] at hsep
          rcases hsep with h1 | h1
          · exact Or.inr (Or.inl h1)
          · exact Or.inr (Or.inr h1)
      · exact ih (fun d hd => h d (List.mem_cons_of_mem _ hd)) c hc2

theorem gen_shape_chars (shape : List Int) (h : ∀ d ∈ shape, 0 ≤ d) :
    ∀ c ∈ Npy.gen_shape shape, (48 ≤ c.toNat ∧ c.toNat ≤ 57) ∨ c = ',' ∨ c = ' ' := by
  match shape with
  | [] => intro c hc; exact absurd hc (by simp [Npy.gen_shape])
  | [n] =>
    intro c hc
    have hn : 0 ≤ n := h n (by simp)
    have : Npy.gen_shape [n] = Npy.intDecimal n ++ [','] := rfl
    rw [this] at hc
    rcases List.mem_append.mp hc with hd | hcomma
    · exact Or.inl (intDecimal_digits hn c hd)
    · simp only [List.mem_cons, List.not_mem_nil, or_false] at hcomma
      exact Or.inr (Or.inl hcomma)
  | a :: b :: rest =>
    intro c hc
    exact gen_shape_items_chars (a :: b :: rest) h c hc

theorem gen_shape_head (shape : List Int) (h : ∀ d ∈ shape, 0 ≤ d)
    (hne : shape ≠ []) :
    48 ≤ ((Npy.gen_shape shape).headD ' ').toNat ∧
      ((Npy.gen_shape shape).headD ' ').toNat ≤ 57 := by
  match shape with
  | [n] =>
    have hn : 0 ≤ n := h n (by simp)
    have hd := intDecimal_ne_nil hn
    have : Npy.gen_shape [n] = Npy.intDecimal n ++ [','] := rfl
    rw [this, headD_append_left _ hd]
    exact intDecimal_digits hn _ (headD_mem hd)
  | a :: b :: rest =>
    have ha : 0 ≤ a := h a (by simp)
    have hd := intDecimal_ne_nil ha
    have hitems : Npy.gen_shape (a :: b :: rest)
        = (Npy.intDecimal a ++ [',', ' ']) ++ Npy.gen_shape_items (b :: rest) := rfl
    rw [hitems, headD_append_left _ (by
      intro hc
      rcases List.append_eq_nil.mp hc with ⟨h1, _⟩
      exact hd h1), headD_append_left _ hd]
    exact intDecimal_digits ha _ (headD_mem hd)

theorem gen_shape_items_last (shape : List Int) (h : ∀ d ∈ shape, 0 ≤ d)
    (hne : shape ≠ []) :
    48 ≤ ((Npy.gen_shape_items shape).getLastD ' ').toNat ∧
      ((Npy.gen_shape_items shape).getLastD ' ').toNat ≤ 57 := by
  induction shape with
  | nil => exact absurd rfl hne
  | cons a rest ih =>
    cases rest with
    | nil =>
      have ha : 0 ≤ a := h a (by simp)
      have hd := intDecimal_ne_nil ha
      show 48 ≤ ((Npy.intDecimal a).getLastD ' ').toNat ∧ _
      exact intDecimal_digits ha _ (getLastD_mem hd)
    | cons b rest2 =>
      have hitems : Npy.gen_shape_items (a :: b :: rest2)
          = (Npy.intDecimal a ++ [',', ' ']) ++ Npy.gen_shape_items (b :: rest2) := rfl
      have hne2 : Npy.gen_shape_items (b :: rest2) ≠ [] := by
        have hb : 0 ≤ b := h b (by simp)
        cases rest2 with
        | nil =>
          show Npy.intDecimal b ≠ []
          exact intDecimal_ne_nil hb
        | cons c2 rest3 =>
          show (Npy.intDecimal b ++ [',', ' ']) ++ Npy.gen_shape_items (c2 :: rest3) ≠ []
          intro hc
          rcases List.append_eq_nil.mp hc with ⟨h1, _⟩
          rcases List.append_eq_nil.mp h1 with ⟨h2, _⟩
          exact intDecimal_ne_nil hb h2
      rw [hitems, getLastD_append_right _ hne2]
      exact ih (fun d hd => h d (List.mem_cons_of_mem _ hd)) (by simp)

theorem trim_gen_shape (shape : List Int) (h : ∀ d ∈ shape, 0 ≤ d) :
    Npy.trim (Npy.gen_shape shape) = Npy.gen_shape shape := by
  match shape with
  | [] => rfl
  | [n] =>
    have hn : 0 ≤ n := h n (by simp)
    have hd := intDecimal_ne_nil hn
    refine trim_eq_self ?_ ?_ ?_
    · show Npy.intDecimal n ++ [','] ≠ []
      simp
    · show (Npy.intDecimal n ++ [',']).headD ' ' ∉ Npy.whitespaceChars
      rw [headD_append_left _ hd]
      have := intDecimal_digits hn _ (headD_mem hd)
      exact digit_not_ws this.1 this.2
    · show (Npy.intDecimal n ++ [',']).getLastD ' ' ∉ Npy.whitespaceChars
      rw [getLastD_append_right _ (by simp)]
      decide
  | a :: b :: rest =>
    have ha : 0 ≤ a := h a (by simp)
    have hd := intDecimal_ne_nil ha
    have hlast := gen_shape_items_last (a :: b :: rest) h (by simp)
    refine trim_eq_self ?_ ?_ ?_
    · show (Npy.intDecimal a ++ [',', ' ']) ++ Npy.gen_shape_items (b :: rest) ≠ []
      intro hc
      rcases List.append_eq_nil.mp hc with ⟨h1, _⟩
      rcases List.append_eq_nil.mp h1 with ⟨h2, _⟩
      exact hd h2
    · have hh := gen_shape_head (a :: b :: rest) h (by simp)
      exact digit_not_ws hh.1 hh.2
    · exact digit_not_ws hlast.1 hlast.2

theorem noStart_quote_block {D : List Char} {c2 : Char} {t : List Char}
    (hD0 : D ≠ []) (hh : D.headD ' ' ≠ c2) (hDq : ∀ c ∈ D, c ≠ Npy.squote) :
    Npy.noStart ([Npy.squote] ++ D) (Npy.squote :: c2 :: t) = true := by
  show Npy.noStart (Npy.squote :: D) _ = true
  simp only [Npy.noStart, Bool.and_eq_true, Bool.not_eq_true']
  refine ⟨?_, noStart_of_ne_head hDq⟩
  rw [Npy.mutPrefix]
  simp only [Bool.or_eq_false_iff]
  obtain ⟨d0, D2, rfl⟩ := List.exists_cons_of_ne_nil hD0
  have hd0 : d0 ≠ c2 := hh
  constructor
  · rw [Bool.eq_false_iff]
    intro hc
    have := List.isPrefixOf_iff_prefix.mp hc
    rw [List.cons_prefix_cons] at this
    rw [List.cons_prefix_cons] at this
    exact hd0 this.2.1
  · rw [Bool.eq_false_iff]
    intro hc
    have := List.isPrefixOf_iff_prefix.mp hc
    rw [List.cons_prefix_cons] at this
    rw [List.cons_prefix_cons] at this
    exact hd0 this.2.1.symm

theorem descrPat_length : Npy.descrPat.length = 9 := rfl

theorem fortranPat_length : Npy.fortranPat.length = 17 := rfl

theorem shapePat_length : Npy.shapePat.length = 9 := rfl

theorem strFind_split {a b pat : List Char} (hns : Npy.noStart a pat = true) (hp : pat <+: b) :
    Npy.strFind (a ++ b) pat = some a.length := by
  rw [strFind_append_of_noStart pat hns b, strFind_of_isPrefix hp]
  simp

theorem parse_header_generic (bo kd : Char) (dig : List Char) (fo : Bool) (S : List Char)
    (pad : Nat) (hdig : dig ≠ [])
    (hdigc : ∀ c ∈ dig, 48 ≤ c.toNat ∧ c.toNat ≤ 57)
    (hboq : bo ≠ Npy.squote) (hbof : bo ≠ 'f') (hbos : bo ≠ 's')
    (hkdq : kd ≠ Npy.squote)
    (hS : ∀ c ∈ S, (48 ≤ c.toNat ∧ c.toNat ≤ 57) ∨ c = ',' ∨ c = ' ')
    (hStrim : Npy.trim S = S) :
    Npy.parse_header
      ((([Npy.lbrace] ++ Npy.descrPat ++ [Npy.squote] ++ (bo :: kd :: dig)
          ++ [Npy.squote, ',', ' '] ++ Npy.fortranPat
          ++ (if fo then Npy.trueLit else Npy.falseLit) ++ [',', ' ']
          ++ Npy.shapePat ++ ['('] ++ S ++ [')', ',', ' ']) ++ [Npy.rbrace])
        ++ List.replicate pad ' ' ++ [Npy.nlChar])
      = .ok ⟨Npy.parse_descr (bo :: kd :: dig), fo, Npy.parse_shape S⟩ := by
  set D := bo :: kd :: dig with hD
  set B := (if fo then Npy.trueLit else Npy.falseLit) with hBdef
  have hDne : D ≠ [] := by rw [hD]; simp
  have hDlen : 3 ≤ D.length := by
    rw [hD]
    obtain ⟨c, t, rfl⟩ := List.exists_cons_of_ne_nil hdig
    simp only [List.length_cons]
    omega
  have hDq : ∀ c ∈ D, c ≠ Npy.squote := by
    rw [hD]
    intro c hc
    rcases List.mem_cons.mp hc with rfl | hc
    · exact hboq
    · rcases List.mem_cons.mp hc with rfl | hc
      · exact hkdq
      · have := hdigc c hc
        exact (digit_char_facts this.1 this.2).2.2.2.2.2.1
  have hBval : B = Npy.trueLit ∨ B = Npy.falseLit := by
    rw [hBdef]
    cases fo
    · exact Or.inr rfl
    · exact Or.inl rfl
  have hSq : ∀ c ∈ S, c ≠ ')' := by
    intro c hc
    rcases hS c hc with hd | rfl | rfl
    · exact (digit_char_facts hd.1 hd.2).2.2.2.1
    · decide
    · decide
  -- noStart facts for the fortran_order key
  have hnsDf : Npy.noStart ([Npy.squote] ++ D) Npy.fortranPat = true := by
    have hpat : Npy.fortranPat
        = Npy.squote :: 'f' :: ("ortran_order".toList ++ [Npy.squote, ':', ' ']) := rfl
    rw [hpat]
    refine noStart_quote_block hDne ?_ hDq
    rw [hD]
    exact hbof
  have hnsPreF : Npy.noStart ([Npy.lbrace] ++ Npy.descrPat ++ [Npy.squote] ++ D
      ++ [Npy.squote, ',', ' ']) Npy.fortranPat = true := by
    have h1 : Npy.noStart ([Npy.lbrace] ++ Npy.descrPat) Npy.fortranPat = true := by decide
    have h3 : Npy.noStart ([Npy.squote, ',', ' '] : List Char) Npy.fortranPat = true := by decide
    have hall := noStart_append (noStart_append h1 hnsDf) h3
    have heq : ([Npy.lbrace] ++ Npy.descrPat ++ [Npy.squote] ++ D ++ [Npy.squote, ',', ' '])
        = (([Npy.lbrace] ++ Npy.descrPat) ++ ([Npy.squote] ++ D)) ++ [Npy.squote, ',', ' '] := by
      simp [List.append_assoc]
    rw [heq]
    exact hall
  -- noStart facts for the shape key
  have hnsDs : Npy.noStart ([Npy.squote] ++ D) Npy.shapePat = true := by
    have hpat : Npy.shapePat
        = Npy.squote :: 's' :: ("hape".toList ++ [Npy.squote, ':', ' ']) := rfl
    rw [hpat]
    refine noStart_quote_block hDne ?_ hDq
    rw [hD]
    exact hbos
  have hnsPreS : Npy.noStart ([Npy.lbrace] ++ Npy.descrPat ++ [Npy.squote] ++ D
      ++ [Npy.squote, ',', ' '] ++ Npy.fortranPat ++ B ++ [',', ' ']) Npy.shapePat = true := by
    have h1 : Npy.noStart ([Npy.lbrace] ++ Npy.descrPat) Npy.shapePat = true := by decide
    have h3 : Npy.noStart ([Npy.squote, ',', ' '] : List Char) Npy.shapePat = true := by decide
    have h4 : Npy.noStart Npy.fortranPat Npy.shapePat = true := by decide
    have h5 : Npy.noStart B Npy.shapePat = true := by
      rcases hBval with hBv | hBv <;> rw [hBv] <;> decide
    have h6 : Npy.noStart ([',', ' '] : List Char) Npy.shapePat = true := by decide
    have hall := noStart_append (noStart_append (noStart_append
      (noStart_append (noStart_append h1 hnsDs) h3) h4) h5) h6
    have heq : ([Npy.lbrace] ++ Npy.descrPat ++ [Npy.squote] ++ D
          ++ [Npy.squote, ',', ' '] ++ Npy.fortranPat ++ B ++ [',', ' '])
        = (((((([Npy.lbrace] ++ Npy.descrPat) ++ ([Npy.squote] ++ D))
            ++ [Npy.squote, ',', ' ']) ++ Npy.fortranPat) ++ B) ++ [',', ' '] : List Char) := by
      simp [List.append_assoc]
    rw [heq]
    exact hall
  -- the dictionary text
  set dict := ([Npy.lbrace] ++ Npy.descrPat ++ [Npy.squote] ++ D
      ++ [Npy.squote, ',', ' '] ++ Npy.fortranPat ++ B ++ [',', ' ']
      ++ Npy.shapePat ++ ['('] ++ S ++ [')', ',', ' ']) ++ [Npy.rbrace] with hdict
  have hdictne : dict ≠ [] := by rw [hdict]; simp
  have hheadws : dict.headD ' ' ∉ Npy.whitespaceChars := by
    have hh : dict.headD ' ' = Npy.lbrace := by rw [hdict]; rfl
    rw [hh]
    decide
  have hlastws : dict.getLastD ' ' ∉ Npy.whitespaceChars := by
    have hh : dict.getLastD ' ' = Npy.rbrace := by
      rw [hdict, List.getLastD_concat]
    rw [hh]
    decide
  have hsv : Npy.trim (dict ++ List.replicate pad ' ') = dict := by
    have := trim_pad 0 pad dict hdictne hheadws hlastws
    simpa using this
  have hfind1 : Npy.strFind dict Npy.descrPat = some 1 := by
    have heq : dict = [Npy.lbrace] ++ (Npy.descrPat ++ ([Npy.squote] ++ D
        ++ [Npy.squote, ',', ' '] ++ Npy.fortranPat ++ B ++ [',', ' ']
        ++ Npy.shapePat ++ ['('] ++ S ++ [')', ',', ' '] ++ [Npy.rbrace])) := by
      rw [hdict]
      simp [List.append_assoc]
    rw [heq, strFind_split (by decide) (List.prefix_append _ _)]
    rfl
  set T2 := [Npy.squote] ++ (D ++ ([Npy.squote] ++ ([',', ' ']
      ++ Npy.fortranPat ++ B ++ [',', ' '] ++ Npy.shapePat ++ ['('] ++ S
      ++ [')', ',', ' '] ++ [Npy.rbrace]))) with hT2
  have hdrop10 : dict.drop (1 + 9) = T2 := by
    have heq : dict = ([Npy.lbrace] ++ Npy.descrPat) ++ T2 := by
      rw [hdict, hT2]
      simp [List.append_assoc]
    rw [heq, List.drop_left' (by simp [descrPat_length])]
  have hp1 : Npy.strFind T2 [Npy.squote] = some 0 := by
    rw [hT2]
    exact strFind_of_isPrefix (List.prefix_append _ _)
  have hdropT2 : T2.drop (0 + 1) = D ++ ([Npy.squote] ++ ([',', ' ']
      ++ Npy.fortranPat ++ B ++ [',', ' '] ++ Npy.shapePat ++ ['('] ++ S
      ++ [')', ',', ' '] ++ [Npy.rbrace])) := by
    rw [hT2]
    exact List.drop_left' (by simp)
  have hp2 : Npy.strFindFrom T2 [Npy.squote] (0 + 1) = some (D.length + 1) := by
    unfold Npy.strFindFrom
    rw [hdropT2]
    rw [strFind_split (noStart_of_ne_head hDq) (List.prefix_append _ _)]
    simp
  have hsvdescr : ((T2.drop (0 + 1)).take (D.length + 1 - 0 - 1)) = D := by
    rw [hdropT2, show D.length + 1 - 0 - 1 = D.length by omega]
    exact List.take_left D _
  have hfindF : Npy.strFind dict Npy.fortranPat
      = some ([Npy.lbrace] ++ Npy.descrPat ++ [Npy.squote] ++ D
          ++ [Npy.squote, ',', ' ']).length := by
    have heq : dict = ([Npy.lbrace] ++ Npy.descrPat ++ [Npy.squote] ++ D
          ++ [Npy.squote, ',', ' '])
        ++ (Npy.fortranPat ++ (B ++ [',', ' '] ++ Npy.shapePat ++ ['('] ++ S
            ++ [')', ',', ' '] ++ [Npy.rbrace])) := by
      rw [hdict]
      simp [List.append_assoc]
    rw [heq, strFind_split hnsPreF (List.prefix_append _ _)]
  have hdropF : dict.drop (([Npy.lbrace] ++ Npy.descrPat ++ [Npy.squote] ++ D
        ++ [Npy.squote, ',', ' ']).length + 17)
      = B ++ ([',', ' '] ++ Npy.shapePat ++ ['('] ++ S ++ [')', ',', ' ']
          ++ [Npy.rbrace]) := by
    have heq : dict = (([Npy.lbrace] ++ Npy.descrPat ++ [Npy.squote] ++ D
          ++ [Npy.squote, ',', ' ']) ++ Npy.fortranPat)
        ++ (B ++ ([',', ' '] ++ Npy.shapePat ++ ['('] ++ S ++ [')', ',', ' ']
            ++ [Npy.rbrace])) := by
      rw [hdict]
      simp [List.append_assoc]
    rw [heq, List.drop_left' (by simp only [List.length_append, List.length_cons,
      List.length_nil, descrPat_length, fortranPat_length])]
  have hfo : (((B ++ ([',', ' '] ++ Npy.shapePat ++ ['('] ++ S ++ [')', ',', ' ']
      ++ [Npy.rbrace])).take 4) == Npy.trueLit) = fo := by
    by_cases hf : fo = true
    · rw [hf] at hBdef ⊢
      rw [if_pos rfl] at hBdef
      rw [hBdef]
      rw [List.take_left' (by decide)]
      decide
    · rw [Bool.not_eq_true] at hf
      rw [hf] at hBdef ⊢
      rw [if_neg (by decide)] at hBdef
      rw [hBdef]
      have ht : (Npy.falseLit ++ ([',', ' '] ++ Npy.shapePat ++ ['('] ++ S
          ++ [')', ',', ' '] ++ [Npy.rbrace])).take 4 = ['F', 'a', 'l', 's'] := rfl
      rw [ht]
      decide
  have hfindS : Npy.strFind dict Npy.shapePat
      = some ([Npy.lbrace] ++ Npy.descrPat ++ [Npy.squote] ++ D
          ++ [Npy.squote, ',', ' '] ++ Npy.fortranPat ++ B ++ [',', ' ']).length := by
    have heq : dict = ([Npy.lbrace] ++ Npy.descrPat ++ [Npy.squote] ++ D
          ++ [Npy.squote, ',', ' '] ++ Npy.fortranPat ++ B ++ [',', ' '])
        ++ (Npy.shapePat ++ (['('] ++ S ++ [')', ',', ' '] ++ [Npy.rbrace])) := by
      rw [hdict]
      simp [List.append_assoc]
    rw [heq, strFind_split hnsPreS (List.prefix_append _ _)]
  have hdropS : dict.drop (([Npy.lbrace] ++ Npy.descrPat ++ [Npy.squote] ++ D
        ++ [Npy.squote, ',', ' '] ++ Npy.fortranPat ++ B ++ [',', ' ']).length + 9)
      = ['('] ++ (S ++ ([')'] ++ ([',', ' '] ++ [Npy.rbrace]))) := by
    have heq : dict = (([Npy.lbrace] ++ Npy.descrPat ++ [Npy.squote] ++ D
          ++ [Npy.squote, ',', ' '] ++ Npy.fortranPat ++ B ++ [',', ' ']) ++ Npy.shapePat)
        ++ (['('] ++ (S ++ ([')'] ++ ([',', ' '] ++ [Npy.rbrace])))) := by
      rw [hdict]
      simp [List.append_assoc]
    rw [heq, List.drop_left' (by simp only [List.length_append, List.length_cons,
      List.length_nil, descrPat_length, fortranPat_length, shapePat_length])]
  have hfindl : Npy.strFind (['('] ++ (S ++ ([')'] ++ ([',', ' '] ++ [Npy.rbrace])))) ['(']
      = some 0 := strFind_of_isPrefix (List.prefix_append _ _)
  have hfindr : Npy.strFind (['('] ++ (S ++ ([')'] ++ ([',', ' '] ++ [Npy.rbrace])))) [')']
      = some ((['('] ++ S).length) := by
    have heq : ['('] ++ (S ++ ([')'] ++ ([',', ' '] ++ [Npy.rbrace])))
        = (['('] ++ S) ++ ([')'] ++ ([',', ' '] ++ [Npy.rbrace])) := by
      simp [List.append_assoc]
    rw [heq]
    refine strFind_split ?_ (List.prefix_append _ _)
    exact noStart_append (by decide) (noStart_of_ne_head hSq)
  have hsubstr : (((['('] ++ (S ++ ([')'] ++ ([',', ' '] ++ [Npy.rbrace])))).drop (0 + 1)).take
      ((['('] ++ S).length - 0 - 1)) = S := by
    rw [List.drop_left' (by simp)]
    rw [show (['('] ++ S).length - 0 - 1 = S.length by simp]
    exact List.take_left S _
  -- now walk the parser
  unfold Npy.parse_header
  rw [List.getLast?_concat]
  dsimp only
  rw [if_neg (by simp)]
  rw [List.dropLast_concat, hsv]
  rw [hfind1]
  dsimp only
  rw [hdrop10, hp1]
  dsimp only
  rw [hp2]
  dsimp only
  rw [hsvdescr]
  rw [if_neg (by omega)]
  rw [hfindF]
  dsimp only
  rw [hdropF, hfo, hfindS]
  dsimp only
  rw [hdropS, hfindl]
  dsimp only
  rw [hfindr]
  dsimp only
  rw [hsubstr, hStrim]

theorem gen_header_eq (v : Npy.Version) (h : Npy.Header) :
    ∃ pad, Npy.gen_header v h
      = Npy.gen_header_dict h ++ List.replicate pad ' ' ++ [Npy.nlChar] := ⟨_, rfl⟩

theorem parse_gen_header (v : Npy.Version) (h : Npy.Header) (hv : Npy.validHeader h) :
    Npy.parse_header (Npy.gen_header v h) = .ok h := by
  obtain ⟨⟨bo, kd, its⟩, fo, shape⟩ := h
  obtain ⟨hbo, hkd, hpos, hdvd, hsh⟩ := hv
  simp only at hbo hkd hpos hdvd hsh
  obtain ⟨dig, hgd, hdigne, hdigc⟩ := gen_descr_form ⟨bo, kd, its⟩ hpos
  simp only at hgd
  have hboq : bo ≠ Npy.squote := by rcases hbo with rfl | rfl | rfl <;> decide
  have hbof : bo ≠ 'f' := by rcases hbo with rfl | rfl | rfl <;> decide
  have hbos : bo ≠ 's' := by rcases hbo with rfl | rfl | rfl <;> decide
  have hkdq : kd ≠ Npy.squote := by
    simp only [List.mem_cons, List.not_mem_nil, or_false] at hkd
    rcases hkd with rfl | rfl | rfl | rfl | rfl <;> decide
  obtain ⟨pad, hpadeq⟩ := gen_header_eq v ⟨⟨bo, kd, its⟩, fo, shape⟩
  have hmain := parse_header_generic bo kd dig fo (Npy.gen_shape shape) pad hdigne hdigc
    hboq hbof hbos hkdq (gen_shape_chars shape hsh) (trim_gen_shape shape hsh)
  rw [← hgd] at hmain
  rw [parse_gen_descr ⟨bo, kd, its⟩ hpos hdvd, parse_shape_gen shape hsh] at hmain
  rw [hpadeq]
  exact hmain

theorem lor_shift (k : Nat) : ∀ a b : Nat, a < 2 ^ k → a ||| b <<< k = a + b * 2 ^ k := by
  induction k with
  | zero =>
    intro a b h
    interval_cases a
    simp [Nat.shiftLeft_eq]
  | succ k ih =>
    intro a b h
    have hm : a / 2 < 2 ^ k := by
      have h2 : 2 ^ (k + 1) = 2 ^ k * 2 := by ring
      omega
    calc a ||| b <<< (k + 1)
        = Nat.bit (a % 2 = 1) (a >>> 1) ||| Nat.bit false (b <<< k) := by
          rw [Nat.bit_decide_mod_two_eq_one_shiftRight_one]
          congr 1
          show b <<< (k + 1) = 2 * (b <<< k)
          rw [Nat.shiftLeft_eq, Nat.shiftLeft_eq, pow_succ]
          ring
      _ = Nat.bit ((decide (a % 2 = 1)) || false) ((a >>> 1) ||| b <<< k) :=
          Nat.lor_bit _ _ _ _
      _ = Nat.bit (a % 2 = 1) (a / 2 + b * 2 ^ k) := by
          rw [Bool.or_false, Nat.shiftRight_one, ih (a / 2) b hm]
      _ = a + b * 2 ^ (k + 1) := by
          rw [Nat.bit_val]
          have hb : (decide (a % 2 = 1)).toNat = a % 2 := by
            rcases Nat.mod_two_eq_zero_or_one a with h2 | h2 <;> simp [h2]
          rw [hb, pow_succ, show b * (2 ^ k * 2) = 2 * (b * 2 ^ k) by ring]
          generalize b * 2 ^ k = t
          omega

theorem read_u32_sc_bytes (n : Nat) (h : Npy.headerLenOk n) :
    Npy.read_u32_sc (n % 2 ^ 32 % 256) (n % 2 ^ 32 / 2 ^ 8 % 256)
      (n % 2 ^ 32 / 2 ^ 16 % 256) (n % 2 ^ 32 / 2 ^ 24 % 256) = n := by
  obtain ⟨h32, hb0, hb1, hb2, hb3⟩ := h
  have hp8 : (2 : Nat) ^ 8 = 256 := rfl
  have hp16 : (2 : Nat) ^ 16 = 65536 := rfl
  have hp24 : (2 : Nat) ^ 24 = 16777216 := rfl
  have hp32 : (2 : Nat) ^ 32 = 4294967296 := rfl
  simp only [hp8, hp16, hp24, hp32] at h32 hb1 hb2 hb3 ⊢
  rw [Nat.mod_eq_of_lt h32]
  have e0 : Npy.sext8 (n % 256) = n % 256 := by
    unfold Npy.sext8
    rw [if_pos (show n % 256 % 256 < 128 by omega)]
    omega
  have e1 : Npy.sext8 (n / 256 % 256) = n / 256 % 256 := by
    unfold Npy.sext8
    rw [if_pos (show n / 256 % 256 % 256 < 128 by omega)]
    omega
  have e2 : Npy.sext8 (n / 65536 % 256) = n / 65536 % 256 := by
    unfold Npy.sext8
    rw [if_pos (show n / 65536 % 256 % 256 < 128 by omega)]
    omega
  have e3 : Npy.sext8 (n / 16777216 % 256) = n / 16777216 % 256 := by
    unfold Npy.sext8
    rw [if_pos (show n / 16777216 % 256 % 256 < 128 by omega)]
    omega
  unfold Npy.read_u32_sc
  simp only [hp32]
  rw [e0, e1, e2, e3]
  rw [lor_shift 8 (n % 256) (n / 256 % 256) (by rw [hp8]; omega)]
  simp only [hp8]
  rw [lor_shift 16 (n % 256 + n / 256 % 256 * 256) (n / 65536 % 256) (by rw [hp16]; omega)]
  simp only [hp16]
  rw [lor_shift 24 (n % 256 + n / 256 % 256 * 256 + n / 65536 % 256 * 65536)
    (n / 16777216 % 256) (by rw [hp24]; omega)]
  simp only [hp24]
  have hrec : n % 256 + n / 256 % 256 * 256 + n / 65536 % 256 * 65536
      + n / 16777216 % 256 * 16777216 = n := by omega
  rw [hrec, Nat.mod_eq_of_lt h32]

theorem byteToChar_charToByte (c : Char) (h : c.toNat < 256) :
    Npy.byteToChar (Npy.charToByte c) = c := by
  unfold Npy.byteToChar Npy.charToByte
  rw [Nat.mod_eq_of_lt h, Nat.mod_eq_of_lt h, Char.ofNat_toNat]

theorem map_byteToChar_charToByte (cs : List Char) (h : ∀ c ∈ cs, c.toNat < 256) :
    (cs.map Npy.charToByte).map Npy.byteToChar = cs := by
  rw [List.map_map]
  induction cs with
  | nil => rfl
  | cons c t ih =>
    simp only [List.map_cons, Function.comp_apply]
    rw [byteToChar_charToByte c (h c (List.mem_cons_self c t)),
      ih (fun x hx => h x (List.mem_cons_of_mem _ hx))]

theorem headerLenOk_of_lt (n : Nat) (h : n < 128) : Npy.headerLenOk n := by
  refine ⟨by omega, by omega, by omega, by omega, by omega⟩

theorem gen_header_length_lt (v : Npy.Version) (h : Npy.Header)
    (hb : Npy.preamble_length v + (Npy.gen_header_dict h).length + 1 ≤ 128) :
    (Npy.gen_header v h).length < 128 := by
  unfold Npy.gen_header
  have hpre : 10 ≤ Npy.preamble_length v := by
    unfold Npy.preamble_length
    split <;> omega
  simp only [List.length_append, List.length_replicate, List.length_cons, List.length_nil,
    show Npy.header_alignment = 64 from rfl]
  split <;> omega

theorem gen_header_dict_length (h : Npy.Header) :
    (Npy.gen_header_dict h).length
      = 47 + (Npy.gen_descr h.dtype).length
        + (if h.fortran_order then Npy.trueLit else Npy.falseLit).length
        + (Npy.gen_shape h.shape).length := by
  unfold Npy.gen_header_dict
  simp only [List.length_append, List.length_cons, List.length_nil,
    descrPat_length, fortranPat_length, shapePat_length]
  omega

theorem natDecimal_length_le (k : Nat) : ∀ n : Nat, n < 10 ^ (k + 1) →
    (Npy.natDecimal n).length ≤ k + 1 := by
  induction k with
  | zero =>
    intro n h
    rw [Npy.natDecimal_unfold, if_pos (by omega)]
    simp
  | succ k ih =>
    intro n h
    rw [Npy.natDecimal_unfold]
    split
    · simp
    · rename_i h10
      simp only [List.length_append, List.length_cons, List.length_nil]
      have hd : n / 10 < 10 ^ (k + 1) := by
        rw [Nat.div_lt_iff_lt_mul (by norm_num)]
        calc n < 10 ^ (k + 1 + 1) := h
          _ = 10 ^ (k + 1) * 10 := by ring
      have := ih (n / 10) hd
      omega

theorem intDecimal_length_le_19 (n : Int) (h0 : 0 ≤ n) (h1 : n < 2 ^ 63) :
    (Npy.intDecimal n).length ≤ 19 := by
  rw [Npy.intDecimal_nonneg n h0]
  have h2 : n.toNat < 10 ^ 19 := by omega
  exact natDecimal_length_le 18 n.toNat h2

theorem gen_header_ascii (v : Npy.Version) (h : Npy.Header) (hv : Npy.validHeader h) :
    ∀ c ∈ Npy.gen_header v h, c.toNat < 256 := by
  obtain ⟨⟨bo, kd, its⟩, fo, shape⟩ := h
  obtain ⟨hbo, hkd, hpos, hdvd, hsh⟩ := hv
  simp only at hbo hkd hpos hdvd hsh
  obtain ⟨dig, hgd, hdigne, hdigc⟩ := gen_descr_form ⟨bo, kd, its⟩ hpos
  simp only at hgd
  obtain ⟨pad, hpadeq⟩ := gen_header_eq v ⟨⟨bo, kd, its⟩, fo, shape⟩
  rw [hpadeq]
  unfold Npy.gen_header_dict
  simp only [List.forall_mem_append]
  repeat' apply And.intro
  · decide
  · decide
  · decide
  · show ∀ x ∈ Npy.gen_descr ⟨bo, kd, its⟩, x.toNat < 256
    rw [hgd]
    intro c hc
    rcases List.mem_cons.mp hc with rfl | hc
    · rcases hbo with rfl | rfl | rfl <;> decide
    · rcases List.mem_cons.mp hc with rfl | hc
      · simp only [List.mem_cons, List.not_mem_nil, or_false] at hkd
        rcases hkd with rfl | rfl | rfl | rfl | rfl <;> decide
      · have := hdigc c hc
        omega
  · decide
  · decide
  · show ∀ x ∈ (if fo then Npy.trueLit else Npy.falseLit), x.toNat < 256
    cases fo
    · show ∀ x ∈ Npy.falseLit, x.toNat < 256
      decide
    · show ∀ x ∈ Npy.trueLit, x.toNat < 256
      decide
  · decide
  · decide
  · decide
  · show ∀ x ∈ Npy.gen_shape shape, x.toNat < 256
    intro c hc
    rcases gen_shape_chars shape hsh c hc with hd | rfl | rfl
    · omega
    · decide
    · decide
  · decide
  · decide
  · intro c hc
    rw [List.eq_of_mem_replicate hc]
    decide
  · decide

theorem read_magic_ok (a b : Nat) (rest : List Npy.Byte) :
    Npy.read_magic (Npy.magic_string ++ ([a, b] ++ rest)) = .ok (⟨a, b⟩, rest) := by
  have htake : (Npy.magic_string ++ ([a, b] ++ rest)).take 6 = Npy.magic_string :=
    List.take_left' (by decide)
  unfold Npy.read_magic
  rw [if_neg (by simp only [List.length_append, List.length_cons, List.length_nil,
    Npy.magic_string]; omega)]
  rw [if_neg (by rw [htake]; simp)]
  simp [Npy.magic_string]

theorem getD4 (x0 x1 x2 x3 : Nat) (X : List Nat) :
    (([x0, x1, x2, x3] ++ X).getD 0 0 = x0) ∧ (([x0, x1, x2, x3] ++ X).getD 1 0 = x1) ∧
    (([x0, x1, x2, x3] ++ X).getD 2 0 = x2) ∧ (([x0, x1, x2, x3] ++ X).getD 3 0 = x3) ∧
    (([x0, x1, x2, x3] ++ X).drop 4 = X) := ⟨rfl, rfl, rfl, rfl, rfl⟩

theorem read_header_ok (cs : List Char) (tail : List Npy.Byte)
    (hcs : ∀ c ∈ cs, c.toNat < 256)
    (hlen : Npy.headerLenOk cs.length) :
    Npy.read_header (Npy.write_header ⟨3, 0⟩ cs ++ tail) = .ok (cs, tail) := by
  have hw : Npy.write_header ⟨3, 0⟩ cs ++ tail
      = Npy.magic_string ++ ([3, 0]
          ++ ([cs.length % 2 ^ 32 % 256, cs.length % 2 ^ 32 / 2 ^ 8 % 256,
               cs.length % 2 ^ 32 / 2 ^ 16 % 256, cs.length % 2 ^ 32 / 2 ^ 24 % 256]
            ++ (cs.map Npy.charToByte ++ tail))) := by
    unfold Npy.write_header Npy.write_magic
    rw [if_neg (by decide)]
    simp [List.append_assoc]
  rw [hw]
  unfold Npy.read_header
  rw [read_magic_ok]
  dsimp only
  rw [if_neg (by decide)]
  rw [if_pos (Or.inr rfl)]
  rw [(getD4 _ _ _ _ _).1, (getD4 _ _ _ _ _).2.1, (getD4 _ _ _ _ _).2.2.1,
    (getD4 _ _ _ _ _).2.2.2.1, (getD4 _ _ _ _ _).2.2.2.2]
  rw [read_u32_sc_bytes cs.length hlen]
  have htake : (cs.map Npy.charToByte ++ tail).take cs.length = cs.map Npy.charToByte :=
    List.take_left' (by simp)
  have hdrop : (cs.map Npy.charToByte ++ tail).drop cs.length = tail :=
    List.drop_left' (by simp)
  rw [htake, hdrop, map_byteToChar_charToByte cs hcs]
  have hrep : cs.length - (cs.map Npy.charToByte ++ tail).length = 0 := by
    simp
  rw [hrep]
  simp

theorem load_header_save (h : Npy.Header) (data : List Npy.Byte)
    (hv : Npy.validHeader h)
    (hlen : Npy.headerLenOk (Npy.gen_header ⟨3, 0⟩ h).length) :
    Npy.load_header (Npy.save h data) = .ok (h, data.take h.numbytes.toNat) := by
  unfold Npy.load_header Npy.save
  rw [read_header_ok _ _ (gen_header_ascii ⟨3, 0⟩ h hv) hlen]
  dsimp only
  rw [parse_gen_header ⟨3, 0⟩ h hv]

theorem load_checked_save (h : Npy.Header) (data : List Npy.Byte)
    (hv : Npy.validHeader h)
    (hlen : Npy.headerLenOk (Npy.gen_header ⟨3, 0⟩ h).length) :
    Npy.load_checked h (Npy.save h data) = .ok (data.take h.numbytes.toNat) := by
  unfold Npy.load_checked
  rw [load_header_save h data hv hlen]
  dsimp only
  rw [if_neg (by simp)]
  unfold Npy.load_data
  simp [List.take_take]

theorem supported_dtype_facts (d : Npy.Dtype) (hd : d ∈ Npy.supportedScalarDtypes) :
    (d.byteorder = Npy.char_little_endian ∨ d.byteorder = Npy.char_big_endian ∨
      d.byteorder = Npy.char_no_endian) ∧ d.kind ∈ ['i', 'u', 'f', 'c', 'U'] ∧
      0 < d.itemsize ∧ Npy.kind_size_multiplier d.kind ∣ d.itemsize := by
  fin_cases hd <;> exact ⟨by decide, by decide, by decide, by decide⟩

set_option maxRecDepth 40000 in
theorem supported_scalar_hlen (d : Npy.Dtype) (hd : d ∈ Npy.supportedScalarDtypes) :
    Npy.headerLenOk (Npy.gen_header ⟨3, 0⟩ ⟨d, false, []⟩).length := by
  fin_cases hd <;> exact ⟨by decide, by decide, by decide, by decide, by decide⟩

theorem load_scalar_save (d : Npy.Dtype) (hd : d ∈ Npy.supportedScalarDtypes)
    (data : List Npy.Byte) :
    Npy.load_scalar d (Npy.save_scalar d data)
      = .ok (data.take (Npy.Header.mk d false []).numbytes.toNat) := by
  obtain ⟨hbo, hkd, hpos, hdvd⟩ := supported_dtype_facts d hd
  have hv : Npy.validHeader ⟨d, false, []⟩ := ⟨hbo, hkd, hpos, hdvd, by simp⟩
  unfold Npy.load_scalar Npy.save_scalar
  rw [load_header_save _ data hv (supported_scalar_hlen d hd)]
  dsimp only
  rw [if_neg (by simp)]
  rw [if_neg (by simp)]
  unfold Npy.load_data
  simp [List.take_take]

theorem supported_vector_hlen (d : Npy.Dtype) (hd : d ∈ Npy.supportedScalarDtypes)
    (n : Int) (h0 : 0 ≤ n) (h1 : n < 2 ^ 63) :
    Npy.headerLenOk (Npy.gen_header ⟨3, 0⟩ ⟨d, false, [n]⟩).length := by
  apply headerLenOk_of_lt
  apply gen_header_length_lt
  rw [gen_header_dict_length]
  have hshape : (Npy.gen_shape [n]).length ≤ 20 := by
    show (Npy.intDecimal n ++ [',']).length ≤ 20
    simp only [List.length_append, List.length_cons, List.length_nil]
    have := intDecimal_length_le_19 n h0 h1
    omega
  have hdescr : (Npy.gen_descr d).length ≤ 4 := by
    fin_cases hd <;> decide
  show Npy.preamble_length ⟨3, 0⟩ + (47 + (Npy.gen_descr d).length
      + (if false then Npy.trueLit else Npy.falseLit).length
      + (Npy.gen_shape [n]).length) + 1 ≤ 128
  rw [show Npy.preamble_length ⟨3, 0⟩ = 12 from rfl, if_neg (by simp)]
  rw [show Npy.falseLit.length = 5 from rfl]
  omega

theorem load_vector_save (d : Npy.Dtype) (hd : d ∈ Npy.supportedScalarDtypes)
    (n : Int) (data : List Npy.Byte) (h0 : 0 ≤ n) (h1 : n < 2 ^ 63) :
    Npy.load_vector d (Npy.save_vector d n data)
      = .ok (n, data.take (Npy.Header.mk d false [n]).numbytes.toNat) := by
  obtain ⟨hbo, hkd, hpos, hdvd⟩ := supported_dtype_facts d hd
  have hv : Npy.validHeader ⟨d, false, [n]⟩ := ⟨hbo, hkd, hpos, hdvd, by simpa using h0⟩
  unfold Npy.load_vector Npy.save_vector
  rw [load_header_save _ data hv (supported_vector_hlen d hd n h0 h1)]
  dsimp only
  rw [if_neg (by simp)]
  rw [if_neg (by simp)]
  unfold Npy.load_data
  simp [List.take_take]

theorem load_string_save (data : List Npy.Byte) (hdl : data.length < 2 ^ 63) :
    Npy.load_string (Npy.save_string data) = .ok data := by
  have h0 : (0 : Int) ≤ (data.length : Int) := Int.natCast_nonneg _
  have h1 : (data.length : Int) < 2 ^ 63 := by omega
  have hcd : Npy.charDtype ∈ Npy.supportedScalarDtypes := by decide
  obtain ⟨hbo, hkd, hpos, hdvd⟩ := supported_dtype_facts Npy.charDtype hcd
  have hv : Npy.validHeader ⟨Npy.charDtype, false, [(data.length : Int)]⟩ :=
    ⟨hbo, hkd, hpos, hdvd, by simp⟩
  have hnb : (Npy.Header.mk Npy.charDtype false [(data.length : Int)]).numbytes.toNat
      = data.length := by
    simp [Npy.Header.numbytes, Npy.Header.length, Npy.charDtype]
  unfold Npy.load_string Npy.save_string
  rw [load_header_save _ data hv
    (supported_vector_hlen Npy.charDtype hcd (data.length : Int) h0 h1)]
  dsimp only
  rw [if_neg (by simp)]
  rw [if_neg (by simp)]
  unfold Npy.load_data
  rw [hnb]
  simp [List.take_take]

set_option maxRecDepth 100000 in
theorem h22bug_header_length : (Npy.gen_header ⟨3, 0⟩ Npy.h22bug).length = 180 := by decide

set_option maxRecDepth 40000 in
theorem h22bug_numbytes : Npy.h22bug.numbytes.toNat = 33554432 := by decide

set_option maxRecDepth 40000 in
theorem save_h22bug_shape (data : List Npy.Byte) :
    Npy.save Npy.h22bug data
      = Npy.magic_string ++ ([3, 0] ++ ([180, 0, 0, 0]
          ++ ((Npy.gen_header ⟨3, 0⟩ Npy.h22bug).map Npy.charToByte
              ++ data.take 33554432))) := by
  unfold Npy.save Npy.write_header Npy.write_magic
  rw [if_neg (by decide)]
  rw [h22bug_header_length, h22bug_numbytes]
  norm_num

theorem getLast_append_replicate (x : List Char) (k : Nat) (c : Char) (hk : k ≠ 0) :
    (x ++ List.replicate k c).getLast? = some c := by
  obtain ⟨m, rfl⟩ : ∃ m, k = m + 1 := ⟨k - 1, by omega⟩
  rw [List.replicate_succ', ← List.append_assoc, List.getLast?_concat]

theorem parse_header_zero_tail (text : List Char) (k : Nat) (hk : k ≠ 0) :
    Npy.parse_header (text ++ List.replicate k (Char.ofNat 0)) = .error .invalidHeader := by
  unfold Npy.parse_header
  rw [getLast_append_replicate text k _ hk]
  dsimp only
  rw [if_pos (by decide)]

theorem load_checked_h22bug (data : List Npy.Byte) :
    Npy.load_checked Npy.h22bug (Npy.save Npy.h22bug data) = .error .invalidHeader := by
  unfold Npy.load_checked Npy.load_header
  rw [save_h22bug_shape data]
  unfold Npy.read_header
  rw [read_magic_ok]
  dsimp only
  rw [if_neg (by decide), if_pos (Or.inr rfl)]
  rw [(getD4 _ _ _ _ _).1, (getD4 _ _ _ _ _).2.1, (getD4 _ _ _ _ _).2.2.1,
    (getD4 _ _ _ _ _).2.2.2.1, (getD4 _ _ _ _ _).2.2.2.2]
  rw [show Npy.read_u32_sc 180 0 0 0 = 4294967220 from by decide]
  have hs2 : ((Npy.gen_header ⟨3, 0⟩ Npy.h22bug).map Npy.charToByte
      ++ data.take 33554432).length ≤ 4294967220 := by
    simp only [List.length_append, List.length_map, h22bug_header_length]
    have h2 : (data.take 33554432).length ≤ 33554432 := List.length_take_le _ data
    omega
  rw [List.take_of_length_le hs2]
  have hkne : 4294967220 - ((Npy.gen_header ⟨3, 0⟩ Npy.h22bug).map Npy.charToByte
      ++ data.take 33554432).length ≠ 0 := by
    simp only [List.length_append, List.length_map, h22bug_header_length]
    have h2 : (data.take 33554432).length ≤ 33554432 := List.length_take_le _ data
    omega
  dsimp only
  rw [parse_header_zero_tail _ _ hkne]

/-- C1: the spec claims a bit-for-bit save/load roundtrip for every supported
element type, shape and memory order.  The typed overloads do roundtrip
(scalars for every supported dtype; 1-D vectors and strings up to the int64
size limit; raw buffers whenever the generated header survives the
length-field read), but the claim is false in general: the 22-dimensional
column-major header h22bug is valid for the raw save path, its generated
version 3.0 header text is exactly 180 characters long, and reloading a stream
saved with it fails with the invalid-header error, because read_header
assembles the little-endian header-length field through plain (signed) chars,
so the byte 0xB4 sign-extends and the header length reads back as 4294967220
instead of 180. -/
theorem C1_roundtrip_signed_char_bug :
    (∀ d ∈ Npy.supportedScalarDtypes, ∀ data : List Npy.Byte,
        Npy.load_scalar d (Npy.save_scalar d data)
          = .ok (data.take (Npy.Header.mk d false []).numbytes.toNat)) ∧
    (∀ d ∈ Npy.supportedScalarDtypes, ∀ (n : Int) (data : List Npy.Byte),
        0 ≤ n → n < 2 ^ 63 →
        Npy.load_vector d (Npy.save_vector d n data)
          = .ok (n, data.take (Npy.Header.mk d false [n]).numbytes.toNat)) ∧
    (∀ data : List Npy.Byte, data.length < 2 ^ 63 →
        Npy.load_string (Npy.save_string data) = .ok data) ∧
    (∀ (h : Npy.Header) (data : List Npy.Byte), Npy.validHeader h →
        Npy.headerLenOk (Npy.gen_header ⟨3, 0⟩ h).length →
        Npy.load_checked h (Npy.save h data) = .ok (data.take h.numbytes.toNat)) ∧
    (Npy.validHeader Npy.h22bug ∧
      (Npy.gen_header ⟨3, 0⟩ Npy.h22bug).length = 180 ∧
      ∀ data : List Npy.Byte,
        Npy.load_checked Npy.h22bug (Npy.save Npy.h22bug data)
          = .error .invalidHeader) :=
  ⟨fun d hd data => load_scalar_save d hd data,
   fun d hd n data h0 h1 => load_vector_save d hd n data h0 h1,
   fun data hdl => load_string_save data hdl,
   fun h data hv hlen => load_checked_save h data hv hlen,
   ⟨by decide, by decide, by decide, by decide, by decide⟩,
   h22bug_header_length,
   fun data => load_checked_h22bug data⟩

set_option maxRecDepth 200000 in
/-- Witness for C1 at the dtype `<i4` and a concrete two-element vector. -/
theorem C1_roundtrip_signed_char_bug_witness :
    Npy.load_vector ⟨'<', 'i', 4⟩ (Npy.save_vector ⟨'<', 'i', 4⟩ 2 [1, 2, 3, 4, 5, 6, 7, 8])
      = .ok (2, [1, 2, 3, 4, 5, 6, 7, 8]) := by
  have h := C1_roundtrip_signed_char_bug.2.1 ⟨'<', 'i', 4⟩ (by decide) 2
    [1, 2, 3, 4, 5, 6, 7, 8] (by decide) (by decide)
  rw [h]
  decide

/-- C2: for every header and every supported format version, the generated header
text is padded with trailing spaces plus a terminating newline so that
`preamble_length version + (gen_header version header).length` is an exact
multiple of 64. -/
theorem C2_header_alignment (version : Npy.Version) (header : Npy.Header) :
    (Npy.preamble_length version + (Npy.gen_header version header).length) % 64 = 0 := by
  unfold Npy.gen_header Npy.header_alignment
  simp only [List.length_append, List.length_replicate, List.length_cons, List.length_nil,
    show Npy.header_alignment = 64 from rfl]
  split <;> omega

end PoppelProof
